import Mathlib

/-!
Verification of the ad-performance dashboard's aggregation, dedup,
pagination, sorting and upsert logic.

The TypeScript sources are embedded shallowly:

* JavaScript numbers are modelled as rationals (`ℚ`).  Every numeric field
  is produced by `parseNumber` (csvParser.ts), which maps unparsable input
  to `0`, so no `NaN`/`Infinity` ever flows into the aggregation code and
  the finite float arithmetic is modelled exactly by `ℚ` arithmetic.
  The `isNaN(x) ? 0 : x` guards in csvParser.ts are therefore the
  identity and are embedded as such.
* JavaScript `Map` objects keyed by strings are modelled as association
  lists in insertion order (`upsertBy` below): update the first entry
  whose key matches, otherwise append a fresh entry.
* `Array.prototype.sort(cmp)` with a consistent comparator is modelled as
  `List.mergeSort` with the relation `cmp a b ≤ 0`.
-/

namespace AdDash

/-- One row of granular performance data: `AdPerformanceData` from
src/types/adData.ts, populated by `parseAdPerformanceCSV` (csvParser.ts).
Numeric fields are rationals (see the file header). -/
structure AdPerformanceData where
  campaignName : String
  campaignId : String
  adSetName : String
  adSetId : String
  adName : String
  adId : String
  placement : String
  platform : String
  deliveryStatus : String
  deliveryLevel : String
  reach : ℚ
  impressions : ℚ
  frequency : ℚ
  results : ℚ
  amountSpent : ℚ
  costPerResult : ℚ
  purchaseRoas : ℚ
  ctrAll : ℚ
  resultRate : ℚ
  starts : String
  ends : String
  reportingStarts : String
  reportingEnds : String
  day : String
  attributionSetting : String
  resultType : String
  deriving DecidableEq

/-- A blank record, used to build concrete test rows by field update. -/
def blankRecord : AdPerformanceData where
  campaignName := ""
  campaignId := ""
  adSetName := ""
  adSetId := ""
  adName := ""
  adId := ""
  placement := ""
  platform := ""
  deliveryStatus := ""
  deliveryLevel := ""
  reach := 0
  impressions := 0
  frequency := 0
  results := 0
  amountSpent := 0
  costPerResult := 0
  purchaseRoas := 0
  ctrAll := 0
  resultRate := 0
  starts := ""
  ends := ""
  reportingStarts := ""
  reportingEnds := ""
  day := ""
  attributionSetting := ""
  resultType := ""

instance : Inhabited AdPerformanceData := ⟨blankRecord⟩

/-- The natural key `(adId, day, placement, platform)` of a record
(spec §3; unique index `idx_v_ad_performance_unique` in the schema). -/
structure NaturalKey where
  ad_id : String
  day : String
  placement : String
  platform : String
  deriving DecidableEq

/-- Natural key of a record (the four identity columns sent to the store
by `convertToSupabaseFormat`, supabaseService.ts). -/
def naturalKey (r : AdPerformanceData) : NaturalKey :=
  ⟨r.adId, r.day, r.placement, r.platform⟩

/-- The dash-joined key string built by `getIncrementalData`
(supabaseService.ts): backtick-template `adId-day-placement-platform`. -/
def joinKey (k : NaturalKey) : String :=
  k.ad_id ++ "-" ++ k.day ++ "-" ++ k.placement ++ "-" ++ k.platform

/-! ## Pagination (`getAdPerformanceData`, supabaseService.ts)

The store itself is external (Supabase/Postgres).  Modelled from the
spec: `readRange` sees a fixed, ordered result set for the query and each
`.range(from, from+pageSize-1)` call returns the slice of that result set
from index `from`, capped at `pageSize` rows (the store-side result-size
limit).  The paging loop below is the embedding of the `while (hasMore)`
loop of `getAdPerformanceData` (lines 159–193): it fetches one page at a
time, concatenates, advances `from` by `pageSize`, and stops on an empty
or short page. -/

/-- The fixed supabase page size used by `getAdPerformanceData`. -/
def pageSize : ℕ := 1000

/-- One `.range` read: the slice of the (unchanged) ordered result set
`matching` starting at `start`, at most `pageSize` rows. -/
def readPage (matching : List AdPerformanceData) (start : ℕ) : List AdPerformanceData :=
  (matching.drop start).take pageSize

/-- The paging loop of `getAdPerformanceData`: accumulate pages until an
empty or short page signals exhaustion. -/
def fetchPages (matching : List AdPerformanceData) (start : ℕ) : List AdPerformanceData :=
  if h : (readPage matching start).length < pageSize then readPage matching start
  else readPage matching start ++ fetchPages matching (start + pageSize)
termination_by matching.length - start
decreasing_by
  have h2 : (readPage matching start).length ≤ matching.length - start := by
    simp [readPage]
  have h3 : pageSize ≤ (readPage matching start).length := Nat.le_of_not_lt h
  have h4 : (0:ℕ) < pageSize := by norm_num [pageSize]
  omega

/-- The function `getAdPerformanceData` restricted to its store
interaction: page
through the query's full result set and concatenate.  (The surrounding
date/campaign filters only determine `matching`; the row-shape conversion
`convertFromSupabaseFormat` is a per-row renaming and is dropped.) -/
def getAdPerformanceData (matching : List AdPerformanceData) : List AdPerformanceData :=
  fetchPages matching 0

/-! ## Insertion-ordered string-keyed maps

JavaScript `Map` objects (campaign map in `aggregateByCampaign`, ad map in
`aggregatedAds`) are modelled as association lists in insertion order:
update the first entry whose key matches, otherwise append a fresh entry.
A `Map` never holds two entries with one key, so the lists built from `[]`
have pairwise-distinct keys. -/

/-- Update the first element whose `key` is `k` with `f`; if none matches,
append `mk`. -/
def upsertBy {α : Type} {β : Type} [DecidableEq β]
    (key : α → β) (k : β) (f : α → α) (mk : α) : List α → List α
  | [] => [mk]
  | x :: xs => if key x = k then f x :: xs else x :: upsertBy key k f mk xs

/-! ## Campaign aggregation (`aggregateByCampaign`, csvParser.ts lines 79–143) -/

/-- One campaign roll-up row: `CampaignSummary` from src/types/adData.ts. -/
structure CampaignSummary where
  campaignName : String
  campaignId : String
  totalSpend : ℚ
  totalResults : ℚ
  totalImpressions : ℚ
  totalReach : ℚ
  avgRoas : ℚ
  avgCtr : ℚ
  costPerResult : ℚ
  adCount : ℕ
  adSetCount : ℕ
  starts : String
  ends : String
  deriving DecidableEq

/-- The campaign map key: backtick-template `campaignId-campaignName`
(csvParser.ts line 83). -/
def campaignKey (r : AdPerformanceData) : String :=
  r.campaignId ++ "-" ++ r.campaignName

/-- The key under which a summary sits in the campaign map; it was built
from the same row fields the summary carries. -/
def summaryKey (c : CampaignSummary) : String :=
  c.campaignId ++ "-" ++ c.campaignName

/-- The zeroed summary installed on first sight of a key
(csvParser.ts lines 86–100). -/
def initCampaign (r : AdPerformanceData) : CampaignSummary where
  campaignName := r.campaignName
  campaignId := r.campaignId
  totalSpend := 0
  totalResults := 0
  totalImpressions := 0
  totalReach := 0
  avgRoas := 0
  avgCtr := 0
  costPerResult := 0
  adCount := 0
  adSetCount := 0
  starts := r.starts
  ends := r.ends

/-- The per-row accumulation (csvParser.ts lines 103–107). -/
def bumpCampaign (r : AdPerformanceData) (c : CampaignSummary) : CampaignSummary :=
  { c with
    totalSpend := c.totalSpend + r.amountSpent
    totalResults := c.totalResults + r.results
    totalImpressions := c.totalImpressions + r.impressions
    totalReach := c.totalReach + r.reach }

/-- One iteration of the first `forEach` over the data: ensure the entry
exists, then accumulate the row into it. -/
def addCampaignRow (acc : List CampaignSummary) (r : AdPerformanceData) :
    List CampaignSummary :=
  upsertBy summaryKey (campaignKey r) (bumpCampaign r) (bumpCampaign r (initCampaign r)) acc

/-- The campaign map after the first pass, in insertion order
(`Array.from(campaignMap.values())`). -/
def campaignPass1 (data : List AdPerformanceData) : List CampaignSummary :=
  data.foldl addCampaignRow []

/-- Spend-weighted ROAS numerator `Σ roas_i * spend_i` over some rows.
The source guards each term with `isNaN(ad.purchaseRoas) ? 0 : ...`;
`parseNumber` never yields `NaN`, so the guard is the identity here. -/
def weightedRoasSum (rows : List AdPerformanceData) : ℚ :=
  (rows.map (fun r => r.purchaseRoas * r.amountSpent)).sum

/-- Spend-weighted CTR numerator `Σ ctr_i * spend_i` over some rows. -/
def weightedCtrSum (rows : List AdPerformanceData) : ℚ :=
  (rows.map (fun r => r.ctrAll * r.amountSpent)).sum

/-- The second pass over one summary (csvParser.ts lines 113–139):
distinct ad-set/ad counts, cost per result, and the spend-weighted
averages, all computed over the rows whose `campaignId` matches the
summary's (note: matched by id alone, not by the map key). -/
def finalizeCampaign (data : List AdPerformanceData) (c : CampaignSummary) :
    CampaignSummary :=
  let campaignAds := data.filter (fun r => r.campaignId == c.campaignId)
  let adSetCount := ((campaignAds.map (fun r => r.adSetId)).dedup).length
  let adCount := ((campaignAds.map (fun r => r.adId)).dedup).length
  let costPerResult := if 0 < c.totalResults then c.totalSpend / c.totalResults else 0
  if 0 < c.totalSpend then
    { c with
      adSetCount := adSetCount
      adCount := adCount
      costPerResult := costPerResult
      avgRoas := weightedRoasSum campaignAds / c.totalSpend
      avgCtr := weightedCtrSum campaignAds / c.totalSpend }
  else
    { c with
      adSetCount := adSetCount
      adCount := adCount
      costPerResult := costPerResult }

/-- The final `campaigns.sort((a, b) => b.totalSpend - a.totalSpend)`:
`a` precedes `b` when the comparator is `≤ 0`. -/
def spendDescLE (a b : CampaignSummary) : Bool :=
  decide (b.totalSpend ≤ a.totalSpend)

/-- The whole `aggregateByCampaign`: first pass, second pass, descending
sort by total spend. -/
def aggregateByCampaign (data : List AdPerformanceData) : List CampaignSummary :=
  ((campaignPass1 data).map (finalizeCampaign data)).mergeSort spendDescLE

/-- Rows landing in the map entry keyed `k`: the entry's group. -/
def groupRows (data : List AdPerformanceData) (k : String) : List AdPerformanceData :=
  data.filter (fun r => campaignKey r == k)

/-! ## Ad-level merge (`filteredAds` / `aggregatedAds`, Dashboard.tsx
lines 236–303).  Fields of the spread `...ad` that the merge and the
claims never consult (campaign/ad-set identity, dates) are omitted from
the merged shape. -/

/-- One merged ad as accumulated by `aggregatedAds`. -/
structure MergedAd where
  adId : String
  adName : String
  placement : String
  platform : String
  deliveryStatus : String
  reach : ℚ
  impressions : ℚ
  results : ℚ
  amountSpent : ℚ
  purchaseRoas : ℚ
  ctrAll : ℚ
  totalSpend : ℚ
  totalResults : ℚ
  totalImpressions : ℚ
  totalReach : ℚ
  placements : List String
  platforms : List String
  statuses : List String
  deriving DecidableEq

/-- The entry created on first sight of an `adId`
(Dashboard.tsx lines 256–265): the row itself plus running totals and
singleton dimension lists. -/
def initMerged (ad : AdPerformanceData) : MergedAd where
  adId := ad.adId
  adName := ad.adName
  placement := ad.placement
  platform := ad.platform
  deliveryStatus := ad.deliveryStatus
  reach := ad.reach
  impressions := ad.impressions
  results := ad.results
  amountSpent := ad.amountSpent
  purchaseRoas := ad.purchaseRoas
  ctrAll := ad.ctrAll
  totalSpend := ad.amountSpent
  totalResults := ad.results
  totalImpressions := ad.impressions
  totalReach := ad.reach
  placements := [ad.placement]
  platforms := [ad.platform]
  statuses := [ad.deliveryStatus]

/-- The fixed status ranking (Dashboard.tsx line 282); statuses outside
the table get `|| 0`. -/
def statusPriority (s : String) : ℕ :=
  if s = "active" then 4
  else if s = "not_delivering" then 3
  else if s = "inactive" then 2
  else if s = "archived" then 1
  else 0

/-- The `if (!list.includes(x)) list.push(x)` idiom. -/
def pushNew (l : List String) (s : String) : List String :=
  if s ∈ l then l else l ++ [s]

/-- Merging one further row into an existing entry (Dashboard.tsx lines
266–299), in source order: bump totals, extend dimension lists, resolve
status by priority, update the weighted ratios using the new total spend
in the denominator but the pre-update `amountSpent` as the old weight,
then overwrite the granular fields with the totals. -/
def mergeStep (m : MergedAd) (ad : AdPerformanceData) : MergedAd :=
  let totalSpend := m.totalSpend + ad.amountSpent
  let totalResults := m.totalResults + ad.results
  let totalImpressions := m.totalImpressions + ad.impressions
  let totalReach := m.totalReach + ad.reach
  let placements := pushNew m.placements ad.placement
  let platforms := pushNew m.platforms ad.platform
  let statuses := pushNew m.statuses ad.deliveryStatus
  let deliveryStatus :=
    if statusPriority m.deliveryStatus < statusPriority ad.deliveryStatus
    then ad.deliveryStatus else m.deliveryStatus
  let purchaseRoas :=
    if 0 < totalSpend
    then (m.purchaseRoas * m.amountSpent + ad.purchaseRoas * ad.amountSpent) / totalSpend
    else 0
  let ctrAll :=
    if 0 < totalSpend
    then (m.ctrAll * m.amountSpent + ad.ctrAll * ad.amountSpent) / totalSpend
    else 0
  { m with
    totalSpend := totalSpend
    totalResults := totalResults
    totalImpressions := totalImpressions
    totalReach := totalReach
    placements := placements
    platforms := platforms
    statuses := statuses
    deliveryStatus := deliveryStatus
    purchaseRoas := purchaseRoas
    ctrAll := ctrAll
    amountSpent := totalSpend
    results := totalResults
    impressions := totalImpressions
    reach := totalReach }

/-- One iteration of the `forEach` over `filteredAds`. -/
def insertAd (acc : List MergedAd) (ad : AdPerformanceData) : List MergedAd :=
  upsertBy (fun m => m.adId) ad.adId (fun m => mergeStep m ad) (initMerged ad) acc

/-- The ad map in insertion order
(`Array.from(adMap.values())`, Dashboard.tsx line 302). -/
def aggregatedAds (l : List AdPerformanceData) : List MergedAd :=
  l.foldl insertAd []

/-- The zero-spend exclusion applied before the merge
(Dashboard.tsx line 246). -/
def filteredAds (l : List AdPerformanceData) : List AdPerformanceData :=
  l.filter (fun ad => decide (0 < ad.amountSpent))

/-- The full ad-level pipeline: drop zero-spend placement rows, then
merge by `adId`. -/
def adMergePipeline (l : List AdPerformanceData) : List MergedAd :=
  aggregatedAds (filteredAds l)

/-- Rows of `l` carrying the ad id `a`. -/
def rowsFor (a : String) (l : List AdPerformanceData) : List AdPerformanceData :=
  l.filter (fun r => r.adId == a)

/-- The largest status priority among some rows. -/
def maxPriority (rows : List AdPerformanceData) : ℕ :=
  (rows.map (fun r => statusPriority r.deliveryStatus)).foldl Nat.max 0

/-- Sum of `amountSpent` over some rows. -/
def spendSum (rows : List AdPerformanceData) : ℚ :=
  (rows.map (fun r => r.amountSpent)).sum

/-! ## Sorting (`sortData`, Dashboard.tsx lines 339–378) -/

/-- The four sortable columns. -/
inductive SortColumn
  | spend
  | results
  | roas
  | ctr
  deriving DecidableEq

/-- Sort direction. -/
inductive SortDirection
  | asc
  | desc
  deriving DecidableEq

/-- The `SortConfig` state (`column` may be `null`). -/
structure SortConfig where
  column : Option SortColumn
  direction : SortDirection
  deriving DecidableEq

/-- The initial dashboard sort state
(`useState<SortConfig>({ column: 'spend', direction: 'desc' })`). -/
def defaultSortConfig : SortConfig :=
  { column := some SortColumn.spend, direction := SortDirection.desc }

/-- The duck-typed shape `sortData` accepts: every metric field optional,
raw rows carrying the granular names and aggregates the `total`/`avg`
names. -/
structure SortItem where
  totalSpend : Option ℚ
  amountSpent : Option ℚ
  totalResults : Option ℚ
  results : Option ℚ
  avgRoas : Option ℚ
  purchaseRoas : Option ℚ
  avgCtr : Option ℚ
  ctrAll : Option ℚ
  deliveryStatus : Option String
  deriving DecidableEq

/-- JavaScript `x || y` on numbers: `undefined` and `0` fall through. -/
def jsOr (x : Option ℚ) (d : ℚ) : ℚ :=
  match x with
  | some v => if v = 0 then d else v
  | none => d

/-- The `switch (config.column)` metric extraction with its `||`
fallbacks (Dashboard.tsx lines 357–374). -/
def metricValue (col : SortColumn) (a : SortItem) : ℚ :=
  match col with
  | SortColumn.spend => jsOr a.totalSpend (jsOr a.amountSpent 0)
  | SortColumn.results => jsOr a.totalResults (jsOr a.results 0)
  | SortColumn.roas => jsOr a.avgRoas (jsOr a.purchaseRoas 0)
  | SortColumn.ctr => jsOr a.avgCtr (jsOr a.ctrAll 0)

/-- The pinned primary key: `deliveryStatus === 'active'`. -/
def isActive (a : SortItem) : Bool :=
  a.deliveryStatus == some "active"

/-- The comparator passed to `sort` (Dashboard.tsx lines 343–377):
active items first, then the requested column's value, `desc` meaning
`bValue - aValue`. -/
def sortCmp (cfg : SortConfig) (a b : SortItem) : ℚ :=
  if isActive a && !(isActive b) then -1
  else if !(isActive a) && isActive b then 1
  else
    match cfg.column with
    | none => 0
    | some col =>
      match cfg.direction with
      | SortDirection.desc => metricValue col b - metricValue col a
      | SortDirection.asc => metricValue col a - metricValue col b

/-- The `[...data].sort(cmp)` call: sorted so that `a` precedes `b`
whenever `cmp a b ≤ 0`. -/
def sortData (l : List SortItem) (cfg : SortConfig) : List SortItem :=
  l.mergeSort (fun a b => decide (sortCmp cfg a b ≤ 0))

/-- Status rank used to state the pinning property: `0` for active
items, `1` otherwise. -/
def activeRank (a : SortItem) : ℕ :=
  if isActive a then 0 else 1

/-- Direction-adjusted metric used to state sortedness: negated for
descending order so that the comparator is `≤` on this value. -/
def dirValue (cfg : SortConfig) (a : SortItem) : ℚ :=
  match cfg.column with
  | none => 0
  | some col =>
    match cfg.direction with
    | SortDirection.desc => -(metricValue col a)
    | SortDirection.asc => metricValue col a

/-! ## Incremental dedup (`getIncrementalData`, supabaseService.ts lines
225–293).  The two store reads (the `count` head query and the
`ad_id, day, placement, platform` select) are inputs: an `Except` value
is either the store's answer or the query's failure (a returned error
object or a thrown exception — both paths return all candidates).  The
returned pair is the filtered list plus the `console.error` warnings
emitted on the way (empty when the lookup succeeded). -/

/-- The embedding of `getIncrementalData`. -/
def getIncrementalData (newData : List AdPerformanceData)
    (countQ : Except String (Option ℕ))
    (existQ : Except String (List NaturalKey)) :
    List AdPerformanceData × List String :=
  if newData.isEmpty then (newData, [])
  else
    match countQ with
    | Except.error e => (newData, [e])
    | Except.ok count =>
      if count = some 0 then (newData, [])
      else
        match existQ with
        | Except.error e => (newData, [e])
        | Except.ok existingData =>
          let existingRecords := existingData.map joinKey
          (newData.filter
            (fun item => !(existingRecords.contains (joinKey (naturalKey item)))), [])

/-- The success path against one consistent store: the head count and
the key select both answer from the same key list. -/
def getIncrementalFromStore (newData : List AdPerformanceData)
    (store : List NaturalKey) : List AdPerformanceData × List String :=
  getIncrementalData newData (Except.ok (some store.length)) (Except.ok store)

/-! ## Persistent upsert (`saveAdPerformanceData`, supabaseService.ts
lines 74–131).

Modelled from the spec: the store engine behind
`.upsert(..., { onConflict: 'ad_id,day,placement,platform' })` is the
external Postgres instance; spec §3/§4.5 specify replace-on-conflict,
last-write-wins writes keyed by the natural key, and the schema's unique
index `idx_v_ad_performance_unique` keeps at most one row per key.  A
store is a list of rows in physical order; upserting one record replaces
the first row sharing its natural key in place, else appends. -/

/-- Upsert a single record into the store. -/
def upsertRecord (store : List AdPerformanceData) (r : AdPerformanceData) :
    List AdPerformanceData :=
  upsertBy naturalKey (naturalKey r) (fun _ => r) r store

/-- The effect of `saveAdPerformanceData` on the store: the batch is
written in order, each row with replace-on-conflict semantics (empty
batches return before reaching the store and leave it unchanged). -/
def saveAdPerformanceData (store : List AdPerformanceData)
    (batch : List AdPerformanceData) : List AdPerformanceData :=
  batch.foldl upsertRecord store

/-- The last record of a batch carrying the key `k` (the authoritative
one under last-write-wins). -/
def lastWith (k : NaturalKey) (b : List AdPerformanceData) :
    Option AdPerformanceData :=
  (b.filter (fun r => naturalKey r == k)).getLast?

/-- The store after overwriting, at each row position, the row by the
batch's last record with that row's key (rows at untouched keys stay). -/
def writeBack (b : List AdPerformanceData) (s : List AdPerformanceData) :
    List AdPerformanceData :=
  s.map (fun q =>
    match lastWith (naturalKey q) b with
    | some v => v
    | none => q)

/-- What `aggregatedAds` guarantees for one merged entry over its
constituent rows: the group is nonempty, `placements` and `platforms` are
duplicate-free lists holding exactly the distinct values seen, and
`deliveryStatus` is a constituent status of maximal priority. -/
def MergedProps (m : MergedAd) (rows : List AdPerformanceData) : Prop :=
  rows ≠ [] ∧
  m.placements.Nodup ∧
  (∀ p, p ∈ m.placements ↔ p ∈ rows.map (fun r => r.placement)) ∧
  m.platforms.Nodup ∧
  (∀ p, p ∈ m.platforms ↔ p ∈ rows.map (fun r => r.platform)) ∧
  statusPriority m.deliveryStatus = maxPriority rows ∧
  m.deliveryStatus ∈ rows.map (fun r => r.deliveryStatus)

/-- Invariant of the ad map while the merge has consumed the rows
`seen`. -/
def MergeInv (seen : List AdPerformanceData) (acc : List MergedAd) : Prop :=
  ((acc.map (fun m => m.adId)).Nodup) ∧
  (∀ r ∈ seen, r.adId ∈ acc.map (fun m => m.adId)) ∧
  ∀ m ∈ acc, MergedProps m (rowsFor m.adId seen)

/-! ## Concrete rows used by witnesses and counterexamples -/

/-- The spec §8 example scenario, first row: spend 100, ROAS 2.0,
placement `feed`. -/
def exRowFeed : AdPerformanceData :=
  { blankRecord with
    campaignName := "C"
    campaignId := "c1"
    adName := "A"
    adId := "A1"
    adSetId := "s1"
    day := "2025-08-16"
    placement := "feed"
    platform := "facebook"
    deliveryStatus := "active"
    amountSpent := 100
    purchaseRoas := 2
    ctrAll := 1 }

/-- The spec §8 example scenario, second row: spend 50, ROAS 4.0,
placement `story`. -/
def exRowStory : AdPerformanceData :=
  { blankRecord with
    campaignName := "C"
    campaignId := "c1"
    adName := "A"
    adId := "A1"
    adSetId := "s1"
    day := "2025-08-16"
    placement := "story"
    platform := "instagram"
    deliveryStatus := "inactive"
    amountSpent := 50
    purchaseRoas := 4
    ctrAll := 2 }

/-- The spec §8 example scenario, third row: zero spend, placement
`story`. -/
def exRowZero : AdPerformanceData :=
  { blankRecord with
    campaignName := "C"
    campaignId := "c1"
    adName := "A"
    adId := "A1"
    adSetId := "s1"
    day := "2025-08-16"
    placement := "story"
    platform := "audience_network"
    deliveryStatus := "archived"
    amountSpent := 0
    purchaseRoas := 0
    ctrAll := 0 }

/-- Two rows sharing `campaignId` `c` but with different campaign names,
so they land in different campaign-map groups while the second-pass
filter (by id alone) sees both. -/
def exSplitA : AdPerformanceData :=
  { blankRecord with
    campaignName := "n1"
    campaignId := "c"
    adName := "A"
    adId := "a1"
    adSetId := "s1"
    amountSpent := 1
    purchaseRoas := 1
    ctrAll := 1 }

/-- Companion row to `exSplitA`: same `campaignId`, different name. -/
def exSplitB : AdPerformanceData :=
  { blankRecord with
    campaignName := "n2"
    campaignId := "c"
    adName := "B"
    adId := "a2"
    adSetId := "s2"
    amountSpent := 1
    purchaseRoas := 3
    ctrAll := 3 }

/-- A candidate whose dash-joined key string collides with
`exStoredKey` although the two natural-key tuples differ. -/
def exCollideCand : AdPerformanceData :=
  { blankRecord with
    campaignName := "C"
    campaignId := "c1"
    adName := "A"
    adId := "a"
    day := "b-c"
    placement := "d"
    platform := "e"
    amountSpent := 5 }

/-- A stored natural key distinct from `exCollideCand`'s but with the
same dash-joined string `a-b-c-d-e`. -/
def exStoredKey : NaturalKey :=
  { ad_id := "a-b"
    day := "c"
    placement := "d"
    platform := "e" }

/-- Invariant of the campaign map while the first pass has consumed the
rows `seen`: keys are pairwise distinct, every seen row's key is present,
and each entry carries zero averages, the identity fields of some seen
row, and the spend total of exactly its key's group. -/
def Pass1Inv (seen : List AdPerformanceData) (acc : List CampaignSummary) : Prop :=
  ((acc.map summaryKey).Nodup) ∧
  (∀ r ∈ seen, campaignKey r ∈ acc.map summaryKey) ∧
  (∀ c ∈ acc, c.avgRoas = 0 ∧ c.avgCtr = 0 ∧
    (∃ r ∈ seen, r.campaignId = c.campaignId ∧ r.campaignName = c.campaignName) ∧
    c.totalSpend = spendSum (groupRows seen (summaryKey c)))

/-- The two-row data set `[exSplitA, exSplitB]` splitting one
`campaignId` across two campaign names. -/
def exPairData : List AdPerformanceData := [exSplitA, exSplitB]

/-- The summary the pair data produces for the `c-n1` group. -/
def exPairSummary : CampaignSummary :=
  finalizeCampaign exPairData (bumpCampaign exSplitA (initCampaign exSplitA))

/-- A one-row data set on which ids and map keys agree. -/
def exSingleData : List AdPerformanceData := [exSplitA]

/-- The summary the one-row data set produces. -/
def exSingleSummary : CampaignSummary :=
  finalizeCampaign exSingleData (bumpCampaign exSplitA (initCampaign exSplitA))

/-- A non-active item with total spend 5. -/
def exItemInactive : SortItem where
  totalSpend := some 5
  amountSpent := none
  totalResults := none
  results := none
  avgRoas := none
  purchaseRoas := none
  avgCtr := none
  ctrAll := none
  deliveryStatus := some "inactive"

/-- An active item with total spend 7. -/
def exItemActive : SortItem where
  totalSpend := some 7
  amountSpent := none
  totalResults := none
  results := none
  avgRoas := none
  purchaseRoas := none
  avgCtr := none
  ctrAll := none
  deliveryStatus := some "active"

/-- A small mixed-status item list for sorting. -/
def exSortItems : List SortItem := [exItemInactive, exItemActive]

/-! ## Theorems -/

theorem fetchPages_eq_drop (matching : List AdPerformanceData) :
    ∀ (n start : ℕ), matching.length - start ≤ n →
      fetchPages matching start = matching.drop start := by
  intro n
  induction n with
  | zero =>
    intro start h
    rw [fetchPages]
    have hlen : (readPage matching start).length = 0 := by
      simp only [readPage, List.length_take, List.length_drop]
      omega
    have hshort : (readPage matching start).length < pageSize := by
      rw [hlen]; simp [pageSize]
    simp only [hshort, dif_pos]
    have hle : matching.length ≤ start := by omega
    rw [List.drop_eq_nil_of_le hle]
    exact List.eq_nil_of_length_eq_zero hlen
  | succ n ih =>
    intro start h
    rw [fetchPages]
    by_cases hshort : (readPage matching start).length < pageSize
    · simp only [hshort, dif_pos]
      have hlt : matching.length - start < pageSize := by
        have h5 := hshort
        simp only [readPage, List.length_take, List.length_drop] at h5
        omega
      simp only [readPage]
      exact List.take_of_length_le (by simp; omega)
    · simp only [hshort, dif_neg, not_false_iff]
      have hfull : pageSize ≤ matching.length - start := by
        have h5 := hshort
        simp only [readPage, List.length_take, List.length_drop] at h5
        omega
      have hrec : fetchPages matching (start + pageSize) = matching.drop (start + pageSize) := by
        apply ih
        have hp : 0 < pageSize := by simp [pageSize]
        omega
      rw [hrec]
      simp only [readPage]
      rw [← List.drop_drop]
      exact List.take_append_drop pageSize (matching.drop start)


/-- C3: for a store whose matching, ordered result set is `matching`
(arbitrarily longer than one page), the paging loop of
`getAdPerformanceData` returns exactly that result set — no duplicates,
no gaps — reading one page at a time and stopping at the first short or
empty page, assuming the store is unchanged during the call and every
page read succeeds (both assumptions are built into the model of
`readPage`). -/
theorem getAdPerformanceData_pagination_complete (matching : List AdPerformanceData) :
    getAdPerformanceData matching = matching ∧
    (getAdPerformanceData matching).length = matching.length := by
  have h := fetchPages_eq_drop matching matching.length 0 (by omega)
  unfold getAdPerformanceData
  rw [h]
  simp

theorem mem_upsertBy_weak {α β : Type} [DecidableEq β]
    (key : α → β) (k : β) (f : α → α) (mk : α) :
    ∀ (acc : List α) (c : α), c ∈ upsertBy key k f mk acc →
      c ∈ acc ∨ (∃ x ∈ acc, key x = k ∧ c = f x) ∨ c = mk := by
  intro acc
  induction acc with
  | nil =>
    intro c hc
    simp only [upsertBy, List.mem_singleton] at hc
    right; right; exact hc
  | cons x xs ih =>
    intro c hc
    simp only [upsertBy] at hc
    by_cases hx : key x = k
    · rw [if_pos hx] at hc
      rcases List.mem_cons.mp hc with h1 | h1
      · right; left; exact ⟨x, List.mem_cons_self x xs, hx, h1⟩
      · left; exact List.mem_cons_of_mem _ h1
    · rw [if_neg hx] at hc
      rcases List.mem_cons.mp hc with h1 | h1
      · left; rw [h1]; exact List.mem_cons_self x xs
      · rcases ih c h1 with h2 | ⟨y, hy, hk, hc2⟩ | h2
        · left; exact List.mem_cons_of_mem _ h2
        · right; left; exact ⟨y, List.mem_cons_of_mem _ hy, hk, hc2⟩
        · right; right; exact h2

theorem map_key_upsertBy {α β : Type} [DecidableEq β]
    (key : α → β) (k : β) (f : α → α) (mk : α)
    (hmk : key mk = k) (hf : ∀ x, key x = k → key (f x) = k) :
    ∀ acc : List α, (upsertBy key k f mk acc).map key =
      if k ∈ acc.map key then acc.map key else acc.map key ++ [k] := by
  intro acc
  induction acc with
  | nil => simp [upsertBy, hmk]
  | cons x xs ih =>
    by_cases hx : key x = k
    · simp only [upsertBy, if_pos hx, List.map_cons]
      rw [hf x hx, hx]
      simp
    · simp only [upsertBy, if_neg hx, List.map_cons]
      rw [ih]
      have hne : (k ∈ key x :: xs.map key) ↔ (k ∈ xs.map key) := by
        constructor
        · intro h
          rcases List.mem_cons.mp h with h1 | h1
          · exact absurd h1.symm hx
          · exact h1
        · exact List.mem_cons_of_mem _
      by_cases hk : k ∈ xs.map key
      · simp [hk, hne.mpr hk]
      · simp only [if_neg hk]
        rw [if_neg (by rw [hne]; exact hk)]
        simp

theorem nodup_map_key_upsertBy {α β : Type} [DecidableEq β]
    (key : α → β) (k : β) (f : α → α) (mk : α)
    (hmk : key mk = k) (hf : ∀ x, key x = k → key (f x) = k)
    (acc : List α) (hnd : (acc.map key).Nodup) :
    ((upsertBy key k f mk acc).map key).Nodup := by
  rw [map_key_upsertBy key k f mk hmk hf]
  by_cases hk : k ∈ acc.map key
  · rwa [if_pos hk]
  · rw [if_neg hk]
    exact List.Nodup.append hnd (List.nodup_singleton k)
      (by intro a ha hb; simp only [List.mem_singleton] at hb; subst hb; exact hk ha)

theorem mem_upsertBy_nodup {α β : Type} [DecidableEq β]
    (key : α → β) (k : β) (f : α → α) (mk : α) :
    ∀ acc : List α, (acc.map key).Nodup → ∀ c ∈ upsertBy key k f mk acc,
      (c ∈ acc ∧ key c ≠ k) ∨ (∃ x ∈ acc, key x = k ∧ c = f x) ∨
      (c = mk ∧ k ∉ acc.map key) := by
  intro acc
  induction acc with
  | nil =>
    intro _ c hc
    simp only [upsertBy, List.mem_singleton] at hc
    right; right; exact ⟨hc, by simp⟩
  | cons x xs ih =>
    intro hnd c hc
    rw [List.map_cons, List.nodup_cons] at hnd
    by_cases hx : key x = k
    · simp only [upsertBy, if_pos hx] at hc
      rcases List.mem_cons.mp hc with h1 | h1
      · right; left; exact ⟨x, List.mem_cons_self x xs, hx, h1⟩
      · left
        refine ⟨List.mem_cons_of_mem _ h1, ?_⟩
        intro hck
        exact hnd.1 (by rw [hx, ← hck]; exact List.mem_map_of_mem key h1)
    · simp only [upsertBy, if_neg hx] at hc
      rcases List.mem_cons.mp hc with h1 | h1
      · left; rw [h1]; exact ⟨List.mem_cons_self x xs, hx⟩
      · rcases ih hnd.2 c h1 with ⟨h2, h3⟩ | ⟨y, hy, hk, hc2⟩ | ⟨h2, h3⟩
        · left; exact ⟨List.mem_cons_of_mem _ h2, h3⟩
        · right; left; exact ⟨y, List.mem_cons_of_mem _ hy, hk, hc2⟩
        · right; right
          refine ⟨h2, ?_⟩
          rw [List.map_cons, List.mem_cons]
          rintro (h4 | h4)
          · exact hx h4.symm
          · exact h3 h4

theorem sum_map_upsertBy {α β : Type} [DecidableEq β]
    (key : α → β) (k : β) (f : α → α) (mk : α) (g : α → ℚ) (d : ℚ)
    (hf : ∀ x, g (f x) = g x + d) (hmk : g mk = d) :
    ∀ acc : List α, ((upsertBy key k f mk acc).map g).sum = (acc.map g).sum + d := by
  intro acc
  induction acc with
  | nil => simp [upsertBy, hmk]
  | cons x xs ih =>
    by_cases hx : key x = k
    · simp only [upsertBy, if_pos hx, List.map_cons, List.sum_cons, hf]
      ring
    · simp only [upsertBy, if_neg hx, List.map_cons, List.sum_cons, ih]
      ring

theorem campaignPass1_fold_sum (g : CampaignSummary → ℚ) (gv : AdPerformanceData → ℚ)
    (hb : ∀ r c, g (bumpCampaign r c) = g c + gv r)
    (hi : ∀ r, g (initCampaign r) = 0) :
    ∀ (data : List AdPerformanceData) (acc : List CampaignSummary),
      ((data.foldl addCampaignRow acc).map g).sum = (acc.map g).sum + (data.map gv).sum := by
  intro data
  induction data with
  | nil => simp
  | cons r rs ih =>
    intro acc
    simp only [List.foldl_cons, List.map_cons, List.sum_cons]
    rw [ih]
    have h1 : ((addCampaignRow acc r).map g).sum = (acc.map g).sum + gv r := by
      apply sum_map_upsertBy
      · intro c; exact hb r c
      · rw [hb, hi]; ring
    rw [h1]
    ring

theorem finalizeCampaign_totalSpend (data : List AdPerformanceData) (c : CampaignSummary) :
    (finalizeCampaign data c).totalSpend = c.totalSpend := by
  unfold finalizeCampaign
  split <;> split <;> rfl

theorem finalizeCampaign_totalResults (data : List AdPerformanceData) (c : CampaignSummary) :
    (finalizeCampaign data c).totalResults = c.totalResults := by
  unfold finalizeCampaign
  split <;> split <;> rfl

theorem finalizeCampaign_totalImpressions (data : List AdPerformanceData) (c : CampaignSummary) :
    (finalizeCampaign data c).totalImpressions = c.totalImpressions := by
  unfold finalizeCampaign
  split <;> split <;> rfl

theorem finalizeCampaign_totalReach (data : List AdPerformanceData) (c : CampaignSummary) :
    (finalizeCampaign data c).totalReach = c.totalReach := by
  unfold finalizeCampaign
  split <;> split <;> rfl

theorem finalizeCampaign_campaignId (data : List AdPerformanceData) (c : CampaignSummary) :
    (finalizeCampaign data c).campaignId = c.campaignId := by
  unfold finalizeCampaign
  split <;> split <;> rfl

theorem finalizeCampaign_campaignName (data : List AdPerformanceData) (c : CampaignSummary) :
    (finalizeCampaign data c).campaignName = c.campaignName := by
  unfold finalizeCampaign
  split <;> split <;> rfl

theorem finalizeCampaign_adCount (data : List AdPerformanceData) (c : CampaignSummary) :
    (finalizeCampaign data c).adCount =
      ((data.filter (fun r => r.campaignId == c.campaignId)).map (fun r => r.adId)).dedup.length := by
  unfold finalizeCampaign
  split <;> split <;> rfl

theorem finalizeCampaign_adSetCount (data : List AdPerformanceData) (c : CampaignSummary) :
    (finalizeCampaign data c).adSetCount =
      ((data.filter (fun r => r.campaignId == c.campaignId)).map (fun r => r.adSetId)).dedup.length := by
  unfold finalizeCampaign
  split <;> split <;> rfl

theorem finalizeCampaign_avgRoas_pos (data : List AdPerformanceData) (c : CampaignSummary)
    (h : 0 < c.totalSpend) :
    (finalizeCampaign data c).avgRoas =
      weightedRoasSum (data.filter (fun r => r.campaignId == c.campaignId)) / c.totalSpend := by
  unfold finalizeCampaign
  rw [if_pos h]

theorem finalizeCampaign_avgCtr_pos (data : List AdPerformanceData) (c : CampaignSummary)
    (h : 0 < c.totalSpend) :
    (finalizeCampaign data c).avgCtr =
      weightedCtrSum (data.filter (fun r => r.campaignId == c.campaignId)) / c.totalSpend := by
  unfold finalizeCampaign
  rw [if_pos h]

theorem finalizeCampaign_avgRoas_nonpos (data : List AdPerformanceData) (c : CampaignSummary)
    (h : ¬ 0 < c.totalSpend) :
    (finalizeCampaign data c).avgRoas = c.avgRoas ∧
    (finalizeCampaign data c).avgCtr = c.avgCtr := by
  unfold finalizeCampaign
  rw [if_neg h]
  exact ⟨rfl, rfl⟩

theorem sum_map_mergeSort {α : Type} (le : α → α → Bool) (l : List α) (g : α → ℚ) :
    (((l.mergeSort le).map g).sum) = ((l.map g).sum) :=
  ((l.mergeSort_perm le).map g).sum_eq

/-- C10: `aggregateByCampaign` assigns each input row to exactly one
summary group, so each of the four additive totals summed over all
returned summaries equals the corresponding field summed over all input
rows — no row dropped, none counted twice. -/
theorem aggregateByCampaign_totals_preserved (data : List AdPerformanceData) :
    ((aggregateByCampaign data).map (fun c => c.totalSpend)).sum =
      (data.map (fun r => r.amountSpent)).sum ∧
    ((aggregateByCampaign data).map (fun c => c.totalResults)).sum =
      (data.map (fun r => r.results)).sum ∧
    ((aggregateByCampaign data).map (fun c => c.totalImpressions)).sum =
      (data.map (fun r => r.impressions)).sum ∧
    ((aggregateByCampaign data).map (fun c => c.totalReach)).sum =
      (data.map (fun r => r.reach)).sum := by
  refine ⟨?_, ?_, ?_, ?_⟩
  · unfold aggregateByCampaign
    rw [sum_map_mergeSort, List.map_map]
    have h1 : ((campaignPass1 data).map ((fun c => c.totalSpend) ∘ finalizeCampaign data)) =
        (campaignPass1 data).map (fun c => c.totalSpend) :=
      List.map_congr_left (fun c _ => finalizeCampaign_totalSpend data c)
    rw [h1]
    unfold campaignPass1
    have h2 := campaignPass1_fold_sum (fun c => c.totalSpend) (fun r => r.amountSpent)
      (fun r c => by simp [bumpCampaign]) (fun r => by simp [initCampaign]) data []
    simpa using h2
  · unfold aggregateByCampaign
    rw [sum_map_mergeSort, List.map_map]
    have h1 : ((campaignPass1 data).map ((fun c => c.totalResults) ∘ finalizeCampaign data)) =
        (campaignPass1 data).map (fun c => c.totalResults) :=
      List.map_congr_left (fun c _ => finalizeCampaign_totalResults data c)
    rw [h1]
    unfold campaignPass1
    have h2 := campaignPass1_fold_sum (fun c => c.totalResults) (fun r => r.results)
      (fun r c => by simp [bumpCampaign]) (fun r => by simp [initCampaign]) data []
    simpa using h2
  · unfold aggregateByCampaign
    rw [sum_map_mergeSort, List.map_map]
    have h1 : ((campaignPass1 data).map ((fun c => c.totalImpressions) ∘ finalizeCampaign data)) =
        (campaignPass1 data).map (fun c => c.totalImpressions) :=
      List.map_congr_left (fun c _ => finalizeCampaign_totalImpressions data c)
    rw [h1]
    unfold campaignPass1
    have h2 := campaignPass1_fold_sum (fun c => c.totalImpressions) (fun r => r.impressions)
      (fun r c => by simp [bumpCampaign]) (fun r => by simp [initCampaign]) data []
    simpa using h2
  · unfold aggregateByCampaign
    rw [sum_map_mergeSort, List.map_map]
    have h1 : ((campaignPass1 data).map ((fun c => c.totalReach) ∘ finalizeCampaign data)) =
        (campaignPass1 data).map (fun c => c.totalReach) :=
      List.map_congr_left (fun c _ => finalizeCampaign_totalReach data c)
    rw [h1]
    unfold campaignPass1
    have h2 := campaignPass1_fold_sum (fun c => c.totalReach) (fun r => r.reach)
      (fun r c => by simp [bumpCampaign]) (fun r => by simp [initCampaign]) data []
    simpa using h2

theorem pass1Inv_step (seen : List AdPerformanceData) (acc : List CampaignSummary)
    (r : AdPerformanceData) (h : Pass1Inv seen acc) :
    Pass1Inv (seen ++ [r]) (addCampaignRow acc r) := by
  obtain ⟨hnd, hcomp, hent⟩ := h
  have hmk : summaryKey (bumpCampaign r (initCampaign r)) = campaignKey r := rfl
  have hfk : ∀ c, summaryKey c = campaignKey r → summaryKey (bumpCampaign r c) = campaignKey r :=
    fun c hc => hc
  refine ⟨?_, ?_, ?_⟩
  · exact nodup_map_key_upsertBy _ _ _ _ hmk hfk acc hnd
  · intro r2 hr2
    unfold addCampaignRow
    rw [map_key_upsertBy _ _ _ _ hmk hfk]
    rcases List.mem_append.mp hr2 with h1 | h1
    · have h2 := hcomp r2 h1
      by_cases hk : campaignKey r ∈ acc.map summaryKey
      · rwa [if_pos hk]
      · rw [if_neg hk]
        exact List.mem_append_left _ h2
    · rw [List.mem_singleton] at h1
      subst h1
      by_cases hk : campaignKey r2 ∈ acc.map summaryKey
      · rwa [if_pos hk]
      · rw [if_neg hk]
        exact List.mem_append_right _ (List.mem_singleton_self _)
  · intro c hc
    rcases mem_upsertBy_nodup _ _ _ _ acc hnd c hc with
      ⟨hin, hkne⟩ | ⟨x, hx, hxk, hcx⟩ | ⟨hcmk, hnotin⟩
    · obtain ⟨hroas, hctr, ⟨r0, hr0m, hid, hname⟩, hts⟩ := hent c hin
      refine ⟨hroas, hctr, ⟨r0, List.mem_append_left _ hr0m, hid, hname⟩, ?_⟩
      rw [hts]
      unfold groupRows spendSum
      rw [List.filter_append]
      have hf1 : List.filter (fun r2 => campaignKey r2 == summaryKey c) [r] = [] := by
        simp only [List.filter_cons, List.filter_nil]
        rw [if_neg]
        intro h4
        rw [beq_iff_eq] at h4
        exact hkne h4.symm
      rw [hf1]
      simp
    · obtain ⟨hroas, hctr, ⟨r0, hr0m, hid, hname⟩, hts⟩ := hent x hx
      subst hcx
      have hbid : (bumpCampaign r x).campaignId = x.campaignId := rfl
      have hbname : (bumpCampaign r x).campaignName = x.campaignName := rfl
      have hbkey : summaryKey (bumpCampaign r x) = summaryKey x := rfl
      refine ⟨hroas, hctr, ⟨r0, List.mem_append_left _ hr0m, hid, hname⟩, ?_⟩
      have hts2 : (bumpCampaign r x).totalSpend = x.totalSpend + r.amountSpent := rfl
      rw [hts2, hts, hbkey]
      unfold groupRows spendSum
      rw [List.filter_append]
      have hf1 : List.filter (fun r2 => campaignKey r2 == summaryKey x) [r] = [r] := by
        simp only [List.filter_cons, List.filter_nil]
        rw [if_pos]
        rw [beq_iff_eq, ← hxk]
      rw [hf1]
      simp
    · subst hcmk
      have hgempty : groupRows seen (campaignKey r) = [] := by
        unfold groupRows
        rw [List.filter_eq_nil_iff]
        intro r2 hr2 hbe
        rw [beq_iff_eq] at hbe
        exact hnotin (hbe ▸ hcomp r2 hr2)
      refine ⟨rfl, rfl, ⟨r, List.mem_append_right _ (List.mem_singleton_self _), rfl, rfl⟩, ?_⟩
      rw [hmk]
      unfold groupRows spendSum
      rw [List.filter_append]
      have hf0 : List.filter (fun r2 => campaignKey r2 == campaignKey r) seen = [] := by
        have := hgempty
        unfold groupRows at this
        exact this
      have hf1 : List.filter (fun r2 => campaignKey r2 == campaignKey r) [r] = [r] := by
        simp only [List.filter_cons, List.filter_nil]
        rw [if_pos (beq_iff_eq.mpr rfl)]
      rw [hf0, hf1]
      show (0 : ℚ) + r.amountSpent = _
      simp

theorem pass1Inv_fold :
    ∀ (data seen : List AdPerformanceData) (acc : List CampaignSummary),
      Pass1Inv seen acc → Pass1Inv (seen ++ data) (data.foldl addCampaignRow acc) := by
  intro data
  induction data with
  | nil =>
    intro seen acc h
    simpa using h
  | cons r rs ih =>
    intro seen acc h
    have h2 := pass1Inv_step seen acc r h
    have h3 := ih (seen ++ [r]) _ h2
    simpa [List.append_assoc] using h3

theorem pass1Inv_campaignPass1 (data : List AdPerformanceData) :
    Pass1Inv data (campaignPass1 data) := by
  have h0 : Pass1Inv [] [] := ⟨by simp, by simp, by simp⟩
  have h := pass1Inv_fold data [] [] h0
  simpa using h

/-- C5: every summary returned by `aggregateByCampaign` has `adCount`
equal to the number of distinct `adId` values (and `adSetCount` to the
number of distinct `adSetId` values) among the input rows of the campaign
the summary identifies — the rows sharing its `campaignId` — however many
placement/platform/day rows each ad has. -/
theorem aggregateByCampaign_distinct_counts (data : List AdPerformanceData)
    (c : CampaignSummary) (hc : c ∈ aggregateByCampaign data) :
    c.adCount =
      ((data.filter (fun r => r.campaignId == c.campaignId)).map (fun r => r.adId)).toFinset.card ∧
    c.adSetCount =
      ((data.filter (fun r => r.campaignId == c.campaignId)).map (fun r => r.adSetId)).toFinset.card := by
  unfold aggregateByCampaign at hc
  rw [List.mem_mergeSort] at hc
  rcases List.mem_map.mp hc with ⟨c0, hc0, rfl⟩
  rw [finalizeCampaign_campaignId]
  constructor
  · rw [finalizeCampaign_adCount, List.card_toFinset]
  · rw [finalizeCampaign_adSetCount, List.card_toFinset]

theorem aggregateByCampaign_distinct_counts_witness :
    exPairSummary.adCount =
      ((exPairData.filter (fun r => r.campaignId == exPairSummary.campaignId)).map
        (fun r => r.adId)).toFinset.card ∧
    exPairSummary.adSetCount =
      ((exPairData.filter (fun r => r.campaignId == exPairSummary.campaignId)).map
        (fun r => r.adSetId)).toFinset.card := by
  apply aggregateByCampaign_distinct_counts
  unfold aggregateByCampaign
  rw [List.mem_mergeSort]
  have h1 : campaignPass1 exPairData =
      [bumpCampaign exSplitA (initCampaign exSplitA),
       bumpCampaign exSplitB (initCampaign exSplitB)] := rfl
  rw [h1]
  exact List.mem_map.mpr
    ⟨bumpCampaign exSplitA (initCampaign exSplitA), List.mem_cons_self _ _, rfl⟩

/-- C1 (amended): in `aggregateByCampaign`, groups are keyed by the
string `campaignId-campaignName` while the weighted numerators are summed
over rows matched by `campaignId` alone, so the per-group identity needs
the two to coincide.  Provided each `campaignId` in the input pairs with
a single `campaignName` (and key strings do not collide across ids), each
returned group with total spend `S > 0` satisfies
`avgRoas * S = Σ (purchaseRoas_i * amountSpent_i)` and
`avgCtr * S = Σ (ctrAll_i * amountSpent_i)` over that group's records;
and whenever `S = 0`, `avgRoas` and `avgCtr` are exactly `0` — no
division by zero occurs (ratios are left at their zero initial value) and
no `NaN` arises (numbers are modelled as `ℚ`, see the file header). -/
theorem aggregateByCampaign_weighted_avg (data : List AdPerformanceData)
    (H : ∀ r1 ∈ data, ∀ r2 ∈ data,
      campaignKey r1 = campaignKey r2 ↔ r1.campaignId = r2.campaignId)
    (c : CampaignSummary) (hc : c ∈ aggregateByCampaign data) :
    (0 < c.totalSpend →
      c.avgRoas * c.totalSpend = weightedRoasSum (groupRows data (summaryKey c)) ∧
      c.avgCtr * c.totalSpend = weightedCtrSum (groupRows data (summaryKey c))) ∧
    (c.totalSpend = 0 → c.avgRoas = 0 ∧ c.avgCtr = 0) := by
  unfold aggregateByCampaign at hc
  rw [List.mem_mergeSort] at hc
  rcases List.mem_map.mp hc with ⟨c0, hc0, rfl⟩
  obtain ⟨hnd, hcomp, hent⟩ := pass1Inv_campaignPass1 data
  obtain ⟨hroas0, hctr0, ⟨r0, hr0, hid, hname⟩, hts⟩ := hent c0 hc0
  have hkey : summaryKey (finalizeCampaign data c0) = summaryKey c0 := by
    unfold summaryKey
    rw [finalizeCampaign_campaignId, finalizeCampaign_campaignName]
  have hkey2 : summaryKey c0 = campaignKey r0 := by
    unfold summaryKey campaignKey
    rw [hid, hname]
  have hgroup : groupRows data (summaryKey c0) =
      data.filter (fun r2 => r2.campaignId == c0.campaignId) := by
    unfold groupRows
    apply List.filter_congr
    intro r2 hr2
    have h3 := H r2 hr2 r0 hr0
    rw [hkey2]
    by_cases h4 : campaignKey r2 = campaignKey r0
    · have h5 : r2.campaignId = c0.campaignId := hid ▸ h3.mp h4
      rw [beq_iff_eq.mpr h4, Eq.symm (beq_iff_eq.mpr h5)]
    · have h5 : ¬ r2.campaignId = c0.campaignId := fun h6 => h4 (h3.mpr (hid ▸ h6))
      rw [beq_eq_false_iff_ne.mpr h4, Eq.symm (beq_eq_false_iff_ne.mpr h5)]
  constructor
  · intro hpos
    have hpos0 : 0 < c0.totalSpend := by
      rwa [finalizeCampaign_totalSpend] at hpos
    have hne : c0.totalSpend ≠ 0 := ne_of_gt hpos0
    constructor
    · rw [finalizeCampaign_avgRoas_pos data c0 hpos0, finalizeCampaign_totalSpend,
        hkey, hgroup]
      exact div_mul_cancel₀ _ hne
    · rw [finalizeCampaign_avgCtr_pos data c0 hpos0, finalizeCampaign_totalSpend,
        hkey, hgroup]
      exact div_mul_cancel₀ _ hne
  · intro hzero
    have hzero0 : c0.totalSpend = 0 := by
      rwa [finalizeCampaign_totalSpend] at hzero
    have hnp : ¬ 0 < c0.totalSpend := by
      rw [hzero0]
      exact lt_irrefl 0
    obtain ⟨ha, hb⟩ := finalizeCampaign_avgRoas_nonpos data c0 hnp
    rw [ha, hb, hroas0, hctr0]
    exact ⟨rfl, rfl⟩

theorem aggregateByCampaign_weighted_avg_witness :
    (0 < exSingleSummary.totalSpend →
      exSingleSummary.avgRoas * exSingleSummary.totalSpend =
        weightedRoasSum (groupRows exSingleData (summaryKey exSingleSummary)) ∧
      exSingleSummary.avgCtr * exSingleSummary.totalSpend =
        weightedCtrSum (groupRows exSingleData (summaryKey exSingleSummary))) ∧
    (exSingleSummary.totalSpend = 0 →
      exSingleSummary.avgRoas = 0 ∧ exSingleSummary.avgCtr = 0) := by
  apply aggregateByCampaign_weighted_avg exSingleData
  · intro r1 h1 r2 h2
    simp only [exSingleData, List.mem_singleton] at h1 h2
    subst h1; subst h2
    exact ⟨fun _ => rfl, fun _ => rfl⟩
  · unfold aggregateByCampaign
    rw [List.mem_mergeSort]
    have h1 : campaignPass1 exSingleData =
        [bumpCampaign exSplitA (initCampaign exSplitA)] := rfl
    rw [h1]
    exact List.mem_map.mpr
      ⟨bumpCampaign exSplitA (initCampaign exSplitA), List.mem_cons_self _ _, rfl⟩

/-- C1 as stated fails on the code: with two rows sharing `campaignId`
`c` under names `n1` and `n2` (spends 1 and 1, ROAS 1 and 3), the group
keyed `c-n1` has `totalSpend = 1` but `avgRoas = 4`, because the
numerator sums over every row with the id `c`, not over the group's own
records, whose weighted sum is `1`. -/
theorem aggregateByCampaign_weighted_avg_counterexample :
    ∃ c ∈ aggregateByCampaign exPairData, 0 < c.totalSpend ∧
      c.avgRoas * c.totalSpend ≠ weightedRoasSum (groupRows exPairData (summaryKey c)) := by
  refine ⟨exPairSummary, ?_, ?_, ?_⟩
  · unfold aggregateByCampaign
    rw [List.mem_mergeSort]
    have h1 : campaignPass1 exPairData =
        [bumpCampaign exSplitA (initCampaign exSplitA),
         bumpCampaign exSplitB (initCampaign exSplitB)] := rfl
    rw [h1]
    exact List.mem_map.mpr
      ⟨bumpCampaign exSplitA (initCampaign exSplitA), List.mem_cons_self _ _, rfl⟩
  · have h2 : exPairSummary.totalSpend = 1 := by
      unfold exPairSummary
      rw [finalizeCampaign_totalSpend]
      show (0 : ℚ) + 1 = 1
      norm_num
    rw [h2]
    norm_num
  · have hpos : (0 : ℚ) < (bumpCampaign exSplitA (initCampaign exSplitA)).totalSpend := by
      show (0 : ℚ) < 0 + 1
      norm_num
    have h2 : exPairSummary.totalSpend = 1 := by
      unfold exPairSummary
      rw [finalizeCampaign_totalSpend]
      show (0 : ℚ) + 1 = 1
      norm_num
    have h3 : exPairSummary.avgRoas = 4 := by
      unfold exPairSummary
      rw [finalizeCampaign_avgRoas_pos _ _ hpos]
      have h4 : exPairData.filter
          (fun r => r.campaignId == (bumpCampaign exSplitA (initCampaign exSplitA)).campaignId) =
          [exSplitA, exSplitB] := by decide
      rw [h4]
      have h5 : weightedRoasSum [exSplitA, exSplitB] = 4 := by
        show exSplitA.purchaseRoas * exSplitA.amountSpent +
          (exSplitB.purchaseRoas * exSplitB.amountSpent + 0) = 4
        show (1 : ℚ) * 1 + (3 * 1 + 0) = 4
        norm_num
      rw [h5]
      show (4 : ℚ) / (0 + 1) = 4
      norm_num
    have h6 : groupRows exPairData (summaryKey exPairSummary) = [exSplitA] := by
      have h7 : summaryKey exPairSummary = "c" ++ "-" ++ "n1" := by
        unfold exPairSummary summaryKey
        rw [finalizeCampaign_campaignId, finalizeCampaign_campaignName]
        rfl
      rw [h7]
      decide
    rw [h2, h3, h6]
    have h8 : weightedRoasSum [exSplitA] = 1 := by
      show exSplitA.purchaseRoas * exSplitA.amountSpent + 0 = 1
      show (1 : ℚ) * 1 + 0 = 1
      norm_num
    rw [h8]
    norm_num

/-- C2 (amended): `getIncrementalData` compares dash-joined key strings,
not key tuples, so two distinct natural keys whose joins collide (the
components contain hyphens) can shadow each other.  Provided the joins
are collision-free between the candidates and the stored keys — as when
`adId`, `placement` and `platform` are hyphen-free and `day` has a fixed
format — a successful lookup returns exactly those candidates whose
natural key `(adId, day, placement, platform)` is absent from the store,
in the input order (including via the empty-store shortcut). -/
theorem getIncrementalData_dedup_exact (cands : List AdPerformanceData)
    (store : List NaturalKey)
    (hinj : ∀ c ∈ cands, ∀ k ∈ store,
      joinKey (naturalKey c) = joinKey k → naturalKey c = k) :
    (getIncrementalFromStore cands store).1 =
      cands.filter (fun c => !(store.contains (naturalKey c))) := by
  unfold getIncrementalFromStore
  by_cases hc : cands.isEmpty
  · rw [List.isEmpty_iff] at hc
    subst hc
    rfl
  · have hc2 : cands.isEmpty = false := Bool.eq_false_iff.mpr hc
    by_cases hs : store = []
    · subst hs
      simp only [getIncrementalData, hc2, Bool.false_eq_true, if_false,
        List.length_nil, if_pos]
      have hall : ∀ c ∈ cands, (!(List.contains [] (naturalKey c))) = true := by
        intro c _
        rfl
      exact (List.filter_eq_self.mpr hall).symm
    · have hlen : (some store.length : Option ℕ) ≠ some 0 := by
        intro h
        injection h with h2
        exact hs (List.length_eq_zero.mp h2)
      simp only [getIncrementalData, hc2, Bool.false_eq_true, if_false, if_neg hlen]
      apply List.filter_congr
      intro c hcm
      have hiff : (joinKey (naturalKey c) ∈ store.map joinKey) ↔ naturalKey c ∈ store := by
        constructor
        · intro hmem
          rcases List.mem_map.mp hmem with ⟨k, hk, hjoin⟩
          have h2 := hinj c hcm k hk hjoin.symm
          rwa [h2]
        · intro hmem
          exact List.mem_map_of_mem joinKey hmem
      by_cases hmem : naturalKey c ∈ store
      · have h3 : List.contains (store.map joinKey) (joinKey (naturalKey c)) = true :=
          List.elem_iff.mpr (hiff.mpr hmem)
        have h4 : store.contains (naturalKey c) = true := List.elem_iff.mpr hmem
        rw [h3, h4]
      · have h3 : List.contains (store.map joinKey) (joinKey (naturalKey c)) = false := by
          rw [Bool.eq_false_iff]
          intro h5
          exact hmem (hiff.mp (List.elem_iff.mp h5))
        have h4 : store.contains (naturalKey c) = false := by
          rw [Bool.eq_false_iff]
          intro h5
          exact hmem (List.elem_iff.mp h5)
        rw [h3, h4]

theorem getIncrementalData_dedup_exact_witness :
    (getIncrementalFromStore exSingleData [naturalKey exSplitB]).1 =
      exSingleData.filter (fun c => !(List.contains [naturalKey exSplitB] (naturalKey c))) := by
  apply getIncrementalData_dedup_exact
  decide

/-- C2 as stated fails on the code: candidate key
`("a", "b-c", "d", "e")` is absent from the store `[("a-b", "c", "d", "e")]`,
yet both dash-join to `a-b-c-d-e`, so the candidate is dropped instead of
returned. -/
theorem getIncrementalData_dedup_counterexample :
    (getIncrementalFromStore [exCollideCand] [exStoredKey]).1 ≠
      [exCollideCand].filter (fun c => !(List.contains [exStoredKey] (naturalKey c))) := by
  decide

/-- C8: when the existing-key lookup fails — the head-count query throws,
or the key select returns an error or throws — `getIncrementalData`
returns the entire candidate list unchanged (treating every candidate as
new), reports the failure as a warning, and still returns normally
rather than failing the call (the embedding is a total function into a
result/warnings pair). -/
theorem getIncrementalData_lookup_failure (cands : List AdPerformanceData)
    (hne : cands ≠ []) (e : String) :
    (∀ existQ, getIncrementalData cands (Except.error e) existQ = (cands, [e])) ∧
    (∀ count : Option ℕ, count ≠ some 0 →
      getIncrementalData cands (Except.ok count) (Except.error e) = (cands, [e])) := by
  have hempty : cands.isEmpty = false := List.isEmpty_eq_false.mpr hne
  constructor
  · intro existQ
    unfold getIncrementalData
    rw [hempty]
    rfl
  · intro count hcount
    unfold getIncrementalData
    rw [hempty]
    show (if count = some 0 then _ else _) = _
    rw [if_neg hcount]

theorem getIncrementalData_lookup_failure_witness :
    getIncrementalData exSingleData (Except.error "store unreachable") (Except.ok []) =
      (exSingleData, ["store unreachable"]) ∧
    getIncrementalData exSingleData (Except.ok none) (Except.error "store unreachable") =
      (exSingleData, ["store unreachable"]) := by
  have h := getIncrementalData_lookup_failure exSingleData (by decide) "store unreachable"
  exact ⟨h.1 (Except.ok []), h.2 none (by decide)⟩

theorem mem_upsertRecord (s : List AdPerformanceData) (r q : AdPerformanceData)
    (hq : q ∈ upsertRecord s r) : q ∈ s ∨ q = r := by
  rcases mem_upsertBy_weak _ _ _ _ s q hq with h | ⟨x, _, _, h⟩ | h
  · exact Or.inl h
  · exact Or.inr h
  · exact Or.inr h

theorem upsertRecord_key_eq (s : List AdPerformanceData) (r q : AdPerformanceData)
    (hnd : (s.map naturalKey).Nodup) (hq : q ∈ upsertRecord s r)
    (hk : naturalKey q = naturalKey r) : q = r := by
  rcases mem_upsertBy_nodup _ _ _ _ s hnd q hq with ⟨_, hne⟩ | ⟨x, _, _, h⟩ | ⟨h, _⟩
  · exact absurd hk hne
  · exact h
  · exact h

theorem map_key_upsertRecord (s : List AdPerformanceData) (r : AdPerformanceData) :
    (upsertRecord s r).map naturalKey =
      if naturalKey r ∈ s.map naturalKey then s.map naturalKey
      else s.map naturalKey ++ [naturalKey r] :=
  map_key_upsertBy naturalKey (naturalKey r) (fun _ => r) r rfl (fun _ _ => rfl) s

theorem nodup_upsertRecord (s : List AdPerformanceData) (r : AdPerformanceData)
    (hnd : (s.map naturalKey).Nodup) :
    ((upsertRecord s r).map naturalKey).Nodup :=
  nodup_map_key_upsertBy naturalKey (naturalKey r) (fun _ => r) r rfl (fun _ _ => rfl) s hnd

theorem key_mem_upsertRecord_of_mem (s : List AdPerformanceData) (r : AdPerformanceData)
    (k : NaturalKey) (hk : k ∈ s.map naturalKey) :
    k ∈ (upsertRecord s r).map naturalKey := by
  rw [map_key_upsertRecord]
  by_cases h : naturalKey r ∈ s.map naturalKey
  · rwa [if_pos h]
  · rw [if_neg h]
    exact List.mem_append_left _ hk

theorem key_mem_upsertRecord_self (s : List AdPerformanceData) (r : AdPerformanceData) :
    naturalKey r ∈ (upsertRecord s r).map naturalKey := by
  rw [map_key_upsertRecord]
  by_cases h : naturalKey r ∈ s.map naturalKey
  · rwa [if_pos h]
  · rw [if_neg h]
    exact List.mem_append_right _ (List.mem_singleton_self _)

theorem nodup_saveAdPerformanceData :
    ∀ (b : List AdPerformanceData) (s : List AdPerformanceData),
      (s.map naturalKey).Nodup → ((saveAdPerformanceData s b).map naturalKey).Nodup := by
  intro b
  induction b with
  | nil => intro s h; exact h
  | cons r0 b ih =>
    intro s h
    exact ih (upsertRecord s r0) (nodup_upsertRecord s r0 h)

theorem key_mem_saveAdPerformanceData_of_mem :
    ∀ (b : List AdPerformanceData) (s : List AdPerformanceData) (k : NaturalKey),
      k ∈ s.map naturalKey → k ∈ (saveAdPerformanceData s b).map naturalKey := by
  intro b
  induction b with
  | nil => intro s k h; exact h
  | cons r0 b ih =>
    intro s k h
    exact ih (upsertRecord s r0) k (key_mem_upsertRecord_of_mem s r0 k h)

theorem keys_present_saveAdPerformanceData :
    ∀ (b : List AdPerformanceData) (s : List AdPerformanceData) (r : AdPerformanceData),
      r ∈ b → naturalKey r ∈ (saveAdPerformanceData s b).map naturalKey := by
  intro b
  induction b with
  | nil => intro s r h; exact absurd h (List.not_mem_nil r)
  | cons r0 b ih =>
    intro s r h
    rcases List.mem_cons.mp h with h1 | h1
    · subst h1
      exact key_mem_saveAdPerformanceData_of_mem b (upsertRecord s r) (naturalKey r)
        (key_mem_upsertRecord_self s r)
    · exact ih (upsertRecord s r0) r h1

theorem mem_saveAdPerformanceData_untouched :
    ∀ (b : List AdPerformanceData) (s : List AdPerformanceData) (q : AdPerformanceData),
      q ∈ saveAdPerformanceData s b → (∀ r ∈ b, naturalKey r ≠ naturalKey q) → q ∈ s := by
  intro b
  induction b with
  | nil => intro s q h _; exact h
  | cons r0 b ih =>
    intro s q h hkeys
    have h2 : q ∈ upsertRecord s r0 :=
      ih (upsertRecord s r0) q h (fun r hr => hkeys r (List.mem_cons_of_mem _ hr))
    rcases mem_upsertRecord s r0 q h2 with h3 | h3
    · exact h3
    · exact absurd (h3 ▸ rfl) (hkeys r0 (List.mem_cons_self _ _))

theorem lastWith_nil (k : NaturalKey) : lastWith k [] = none := rfl

theorem lastWith_cons_of_some (k : NaturalKey) (r0 : AdPerformanceData)
    (b : List AdPerformanceData) (v : AdPerformanceData)
    (h : lastWith k b = some v) : lastWith k (r0 :: b) = some v := by
  unfold lastWith at *
  rw [List.filter_cons]
  by_cases hk : (naturalKey r0 == k) = true
  · rw [if_pos hk]
    have hne : b.filter (fun r => naturalKey r == k) ≠ [] := by
      intro h2
      rw [h2] at h
      exact absurd h (by simp)
    rcases List.exists_cons_of_ne_nil hne with ⟨x, xs, hx⟩
    rw [hx] at h ⊢
    rw [List.getLast?_cons_cons]
    exact h
  · rw [if_neg hk]
    exact h

theorem lastWith_cons_of_none (k : NaturalKey) (r0 : AdPerformanceData)
    (b : List AdPerformanceData) (h : lastWith k b = none) :
    lastWith k (r0 :: b) = if naturalKey r0 = k then some r0 else none := by
  unfold lastWith at *
  rw [List.getLast?_eq_none_iff] at h
  rw [List.filter_cons, h]
  by_cases hk : naturalKey r0 = k
  · rw [if_pos (by exact beq_iff_eq.mpr hk), if_pos hk]
    rfl
  · rw [if_neg (by simp [hk]), if_neg hk]
    rfl

theorem lastWith_none_forall (k : NaturalKey) (b : List AdPerformanceData)
    (h : lastWith k b = none) : ∀ r ∈ b, naturalKey r ≠ k := by
  unfold lastWith at h
  rw [List.getLast?_eq_none_iff, List.filter_eq_nil_iff] at h
  intro r hr hk
  exact h r hr (beq_iff_eq.mpr hk)

theorem save_last_value :
    ∀ (b s : List AdPerformanceData), (s.map naturalKey).Nodup →
      ∀ q ∈ saveAdPerformanceData s b, ∀ v,
        lastWith (naturalKey q) b = some v → q = v := by
  intro b
  induction b with
  | nil =>
    intro s _ q _ v hv
    rw [lastWith_nil] at hv
    exact absurd hv (by simp)
  | cons r0 b ih =>
    intro s hnd q hq v hv
    rcases hlast : lastWith (naturalKey q) b with _ | v2
    · rw [lastWith_cons_of_none _ _ _ hlast] at hv
      by_cases hk : naturalKey r0 = naturalKey q
      · rw [if_pos hk] at hv
        injection hv with hv2
        subst hv2
        have hnone := lastWith_none_forall (naturalKey q) b hlast
        have h2 : q ∈ upsertRecord s r0 :=
          mem_saveAdPerformanceData_untouched b (upsertRecord s r0) q hq hnone
        exact upsertRecord_key_eq s r0 q hnd h2 hk.symm
      · rw [if_neg hk] at hv
        exact absurd hv (by simp)
    · rw [lastWith_cons_of_some _ _ _ _ hlast] at hv
      injection hv with hv2
      subst hv2
      exact ih (upsertRecord s r0) (nodup_upsertRecord s r0 hnd) q hq v2 hlast

theorem upsertRecord_eq_map (r : AdPerformanceData) :
    ∀ s : List AdPerformanceData, (s.map naturalKey).Nodup →
      naturalKey r ∈ s.map naturalKey →
      upsertRecord s r =
        s.map (fun q => if naturalKey q = naturalKey r then r else q) := by
  intro s
  induction s with
  | nil => intro _ h; exact absurd h (List.not_mem_nil _)
  | cons x xs ih =>
    intro hnd hk
    rw [List.map_cons, List.nodup_cons] at hnd
    by_cases hx : naturalKey x = naturalKey r
    · show upsertBy naturalKey (naturalKey r) (fun _ => r) r (x :: xs) = _
      simp only [upsertBy, if_pos hx, List.map_cons]
      have h1 : ∀ q ∈ xs, (if naturalKey q = naturalKey r then r else q) = q := by
        intro q hq
        rw [if_neg]
        intro h2
        exact hnd.1 (by rw [hx, ← h2]; exact List.mem_map_of_mem naturalKey hq)
      rw [List.map_congr_left h1, List.map_id']
    · show upsertBy naturalKey (naturalKey r) (fun _ => r) r (x :: xs) = _
      simp only [upsertBy, if_neg hx, List.map_cons]
      have hk2 : naturalKey r ∈ xs.map naturalKey := by
        rcases List.mem_cons.mp hk with h1 | h1
        · exact absurd h1.symm hx
        · exact h1
      have h3 := ih hnd.2 hk2
      unfold upsertRecord at h3
      rw [h3]

theorem naturalKey_replace (r q : AdPerformanceData) :
    naturalKey (if naturalKey q = naturalKey r then r else q) = naturalKey q := by
  by_cases h : naturalKey q = naturalKey r
  · rw [if_pos h, h]
  · rw [if_neg h]

theorem save_all_present_eq :
    ∀ (b s : List AdPerformanceData), (s.map naturalKey).Nodup →
      (∀ r ∈ b, naturalKey r ∈ s.map naturalKey) →
      saveAdPerformanceData s b = writeBack b s := by
  intro b
  induction b with
  | nil =>
    intro s _ _
    show s = writeBack [] s
    unfold writeBack
    have h1 : ∀ q ∈ s,
        (match lastWith (naturalKey q) [] with | some v => v | none => q) = q :=
      fun q _ => rfl
    rw [List.map_congr_left h1, List.map_id']
  | cons r0 b ih =>
    intro s hnd hpres
    have hr0 : naturalKey r0 ∈ s.map naturalKey := hpres r0 (List.mem_cons_self _ _)
    have hrep := upsertRecord_eq_map r0 s hnd hr0
    have hkeys : (upsertRecord s r0).map naturalKey = s.map naturalKey := by
      rw [hrep, List.map_map]
      apply List.map_congr_left
      intro q _
      exact naturalKey_replace r0 q
    show saveAdPerformanceData (upsertRecord s r0) b = writeBack (r0 :: b) s
    rw [ih (upsertRecord s r0) (by rw [hkeys]; exact hnd)
      (fun r hr => by rw [hkeys]; exact hpres r (List.mem_cons_of_mem _ hr))]
    unfold writeBack
    rw [hrep, List.map_map]
    apply List.map_congr_left
    intro q _
    show (match lastWith
        (naturalKey (if naturalKey q = naturalKey r0 then r0 else q)) b with
      | some v => v
      | none => if naturalKey q = naturalKey r0 then r0 else q) =
      (match lastWith (naturalKey q) (r0 :: b) with | some v => v | none => q)
    rw [naturalKey_replace r0 q]
    rcases hlast : lastWith (naturalKey q) b with _ | v
    · rw [lastWith_cons_of_none _ _ _ hlast]
      by_cases hk : naturalKey q = naturalKey r0
      · rw [if_pos hk, if_pos hk.symm]
      · rw [if_neg hk, if_neg (fun h2 => hk h2.symm)]
    · rw [lastWith_cons_of_some _ _ _ _ hlast]

/-- C9: applying the upsert of `saveAdPerformanceData` twice with an
identical batch leaves the store — any store satisfying the schema's
unique natural-key index — exactly as applying it once: the same rows,
hence the same row count and field values.  Moreover a record whose
natural key is already present overwrites in place instead of creating a
duplicate (the row count does not grow). -/
theorem saveAdPerformanceData_idempotent (store batch : List AdPerformanceData)
    (hnd : (store.map naturalKey).Nodup) :
    saveAdPerformanceData (saveAdPerformanceData store batch) batch =
      saveAdPerformanceData store batch ∧
    (saveAdPerformanceData (saveAdPerformanceData store batch) batch).length =
      (saveAdPerformanceData store batch).length ∧
    ∀ r : AdPerformanceData, naturalKey r ∈ store.map naturalKey →
      (upsertRecord store r).length = store.length := by
  have hnd1 : ((saveAdPerformanceData store batch).map naturalKey).Nodup :=
    nodup_saveAdPerformanceData batch store hnd
  have hpres : ∀ r ∈ batch,
      naturalKey r ∈ (saveAdPerformanceData store batch).map naturalKey :=
    fun r hr => keys_present_saveAdPerformanceData batch store r hr
  have hmain : saveAdPerformanceData (saveAdPerformanceData store batch) batch =
      saveAdPerformanceData store batch := by
    rw [save_all_present_eq batch (saveAdPerformanceData store batch) hnd1 hpres]
    unfold writeBack
    have h1 : ∀ q ∈ saveAdPerformanceData store batch,
        (match lastWith (naturalKey q) batch with | some v => v | none => q) = q := by
      intro q hq
      rcases hlast : lastWith (naturalKey q) batch with _ | v
      · rfl
      · have h2 := save_last_value batch store hnd q hq v hlast
        rw [h2]
    rw [List.map_congr_left h1, List.map_id']
  refine ⟨hmain, by rw [hmain], ?_⟩
  intro r hr
  rw [upsertRecord_eq_map r store hnd hr, List.length_map]

theorem saveAdPerformanceData_idempotent_witness :
    saveAdPerformanceData (saveAdPerformanceData [] [exRowFeed, exRowStory, exRowZero])
        [exRowFeed, exRowStory, exRowZero] =
      saveAdPerformanceData [] [exRowFeed, exRowStory, exRowZero] ∧
    (saveAdPerformanceData (saveAdPerformanceData [] [exRowFeed, exRowStory, exRowZero])
        [exRowFeed, exRowStory, exRowZero]).length =
      (saveAdPerformanceData [] [exRowFeed, exRowStory, exRowZero]).length ∧
    ∀ r : AdPerformanceData, naturalKey r ∈ ([] : List AdPerformanceData).map naturalKey →
      (upsertRecord [] r).length = ([] : List AdPerformanceData).length :=
  saveAdPerformanceData_idempotent [] [exRowFeed, exRowStory, exRowZero] (by decide)

theorem sortCmp_le_iff (cfg : SortConfig) (a b : SortItem) :
    sortCmp cfg a b ≤ 0 ↔
      (activeRank a < activeRank b ∨
        (activeRank a = activeRank b ∧ dirValue cfg a ≤ dirValue cfg b)) := by
  unfold sortCmp activeRank dirValue
  rcases cfg with ⟨colO, dir⟩
  cases ha : isActive a <;> cases hb : isActive b <;>
    simp only [Bool.not_true, Bool.not_false, Bool.and_true, Bool.and_false,
      Bool.true_and, Bool.false_and, if_true, if_false] <;>
    cases colO <;> try cases dir
  all_goals simp

theorem sortCmp_trans (cfg : SortConfig) (a b c : SortItem)
    (h1 : decide (sortCmp cfg a b ≤ 0) = true)
    (h2 : decide (sortCmp cfg b c ≤ 0) = true) :
    decide (sortCmp cfg a c ≤ 0) = true := by
  rw [decide_eq_true_iff] at *
  rw [sortCmp_le_iff] at *
  rcases h1 with h1 | ⟨h1e, h1v⟩ <;> rcases h2 with h2 | ⟨h2e, h2v⟩
  · exact Or.inl (Nat.lt_trans h1 h2)
  · exact Or.inl (h2e ▸ h1)
  · exact Or.inl (h1e ▸ h2)
  · exact Or.inr ⟨h1e.trans h2e, le_trans h1v h2v⟩

theorem sortCmp_total (cfg : SortConfig) (a b : SortItem) :
    (decide (sortCmp cfg a b ≤ 0) || decide (sortCmp cfg b a ≤ 0)) = true := by
  rw [Bool.or_eq_true, decide_eq_true_iff, decide_eq_true_iff,
    sortCmp_le_iff, sortCmp_le_iff]
  rcases Nat.lt_trichotomy (activeRank a) (activeRank b) with h | h | h
  · exact Or.inl (Or.inl h)
  · rcases le_total (dirValue cfg a) (dirValue cfg b) with hv | hv
    · exact Or.inl (Or.inr ⟨h, hv⟩)
    · exact Or.inr (Or.inr ⟨h.symm, hv⟩)
  · exact Or.inr (Or.inl h)

theorem pairwise_active_split (r : SortItem → SortItem → Bool)
    (hr : ∀ x y, r x y = true → isActive y = true → isActive x = true) :
    ∀ l : List SortItem, l.Pairwise (fun x y => r x y = true) →
      ∃ l1 l2, l = l1 ++ l2 ∧
        (∀ x ∈ l1, isActive x = true) ∧ (∀ x ∈ l2, isActive x = false) := by
  intro l
  induction l with
  | nil => intro _; exact ⟨[], [], rfl, by simp, by simp⟩
  | cons x xs ih =>
    intro hp
    rw [List.pairwise_cons] at hp
    rcases ih hp.2 with ⟨l1, l2, heq, h1, h2⟩
    cases hx : isActive x
    · refine ⟨[], x :: xs, rfl, by simp, ?_⟩
      intro y hy
      rcases List.mem_cons.mp hy with h3 | h3
      · rw [h3]; exact hx
      · cases hy2 : isActive y
        · rfl
        · exact absurd (hr x y (hp.1 y h3) hy2) (by rw [hx]; exact Bool.false_ne_true)
    · refine ⟨x :: l1, l2, by rw [heq]; rfl, ?_, h2⟩
      intro y hy
      rcases List.mem_cons.mp hy with h3 | h3
      · rw [h3]; exact hx
      · exact h1 y h3

/-- C4: for every item list and requested sort column and direction,
`sortData` puts every item with `deliveryStatus === 'active'` before
every other item regardless of the requested column; within each status
partition items are ordered by the requested column's value —
descending when the direction is `desc`, ascending when `asc` — and the
dashboard's initial sort state is column `spend`, direction `desc`. -/
theorem sortData_active_pinning (l : List SortItem) (col : SortColumn)
    (dir : SortDirection) :
    (sortData l ⟨some col, dir⟩).Perm l ∧
    (∃ l1 l2, sortData l ⟨some col, dir⟩ = l1 ++ l2 ∧
      (∀ x ∈ l1, isActive x = true) ∧ (∀ x ∈ l2, isActive x = false) ∧
      (dir = SortDirection.desc →
        l1.Pairwise (fun x y => metricValue col y ≤ metricValue col x) ∧
        l2.Pairwise (fun x y => metricValue col y ≤ metricValue col x)) ∧
      (dir = SortDirection.asc →
        l1.Pairwise (fun x y => metricValue col x ≤ metricValue col y) ∧
        l2.Pairwise (fun x y => metricValue col x ≤ metricValue col y))) ∧
    defaultSortConfig = ⟨some SortColumn.spend, SortDirection.desc⟩ := by
  have hperm : (sortData l ⟨some col, dir⟩).Perm l :=
    List.mergeSort_perm l _
  have hsorted : (sortData l ⟨some col, dir⟩).Pairwise
      (fun a b => decide (sortCmp ⟨some col, dir⟩ a b ≤ 0) = true) :=
    List.sorted_mergeSort (sortCmp_trans ⟨some col, dir⟩)
      (sortCmp_total ⟨some col, dir⟩) l
  have hr : ∀ x y, decide (sortCmp ⟨some col, dir⟩ x y ≤ 0) = true →
      isActive y = true → isActive x = true := by
    intro x y hxy hy
    rw [decide_eq_true_iff, sortCmp_le_iff] at hxy
    have hry : activeRank y = 0 := by unfold activeRank; rw [hy]; rfl
    have hrx : activeRank x = 0 := by
      rcases hxy with h | ⟨h, _⟩
      · omega
      · omega
    unfold activeRank at hrx
    by_cases hx : isActive x = true
    · exact hx
    · rw [if_neg hx] at hrx
      exact absurd hrx one_ne_zero
  rcases pairwise_active_split _ hr (sortData l ⟨some col, dir⟩) hsorted with
    ⟨l1, l2, heq, h1, h2⟩
  have hpair := heq ▸ hsorted
  rw [List.pairwise_append] at hpair
  have hvalue : ∀ x y : SortItem, activeRank x = activeRank y →
      decide (sortCmp ⟨some col, dir⟩ x y ≤ 0) = true →
      dirValue ⟨some col, dir⟩ x ≤ dirValue ⟨some col, dir⟩ y := by
    intro x y hrank hxy
    rw [decide_eq_true_iff, sortCmp_le_iff] at hxy
    rcases hxy with h | ⟨_, h⟩
    · omega
    · exact h
  have hrank1 : ∀ x ∈ l1, activeRank x = 0 := by
    intro x hx
    unfold activeRank
    rw [h1 x hx]
    rfl
  have hrank2 : ∀ x ∈ l2, activeRank x = 1 := by
    intro x hx
    unfold activeRank
    rw [h2 x hx]
    rfl
  have hdir1 : l1.Pairwise (fun x y =>
      dirValue ⟨some col, dir⟩ x ≤ dirValue ⟨some col, dir⟩ y) :=
    hpair.1.imp_of_mem (fun hx hy h =>
      hvalue _ _ ((hrank1 _ hx).trans (hrank1 _ hy).symm) h)
  have hdir2 : l2.Pairwise (fun x y =>
      dirValue ⟨some col, dir⟩ x ≤ dirValue ⟨some col, dir⟩ y) :=
    hpair.2.1.imp_of_mem (fun hx hy h =>
      hvalue _ _ ((hrank2 _ hx).trans (hrank2 _ hy).symm) h)
  refine ⟨hperm, ⟨l1, l2, heq, h1, h2, ?_, ?_⟩, rfl⟩
  · intro hdesc
    subst hdesc
    constructor
    · refine hdir1.imp ?_
      intro x y h
      unfold dirValue at h
      simp only at h
      linarith
    · refine hdir2.imp ?_
      intro x y h
      unfold dirValue at h
      simp only at h
      linarith
  · intro hasc
    subst hasc
    constructor
    · refine hdir1.imp ?_
      intro x y h
      unfold dirValue at h
      simpa using h
    · refine hdir2.imp ?_
      intro x y h
      unfold dirValue at h
      simpa using h

theorem sortData_active_pinning_witness :
    (sortData exSortItems ⟨some SortColumn.spend, SortDirection.desc⟩).Perm exSortItems ∧
    (∃ l1 l2, sortData exSortItems ⟨some SortColumn.spend, SortDirection.desc⟩ = l1 ++ l2 ∧
      (∀ x ∈ l1, isActive x = true) ∧ (∀ x ∈ l2, isActive x = false) ∧
      (SortDirection.desc = SortDirection.desc →
        l1.Pairwise (fun x y =>
          metricValue SortColumn.spend y ≤ metricValue SortColumn.spend x) ∧
        l2.Pairwise (fun x y =>
          metricValue SortColumn.spend y ≤ metricValue SortColumn.spend x)) ∧
      (SortDirection.desc = SortDirection.asc →
        l1.Pairwise (fun x y =>
          metricValue SortColumn.spend x ≤ metricValue SortColumn.spend y) ∧
        l2.Pairwise (fun x y =>
          metricValue SortColumn.spend x ≤ metricValue SortColumn.spend y))) ∧
    defaultSortConfig = ⟨some SortColumn.spend, SortDirection.desc⟩ :=
  sortData_active_pinning exSortItems SortColumn.spend SortDirection.desc

theorem mergeStep_adId (m : MergedAd) (r : AdPerformanceData) :
    (mergeStep m r).adId = m.adId := rfl

theorem mergeStep_totalSpend (m : MergedAd) (r : AdPerformanceData) :
    (mergeStep m r).totalSpend = m.totalSpend + r.amountSpent := rfl

theorem mergeStep_amountSpent (m : MergedAd) (r : AdPerformanceData) :
    (mergeStep m r).amountSpent = m.totalSpend + r.amountSpent := rfl

theorem mergeStep_purchaseRoas_pos (m : MergedAd) (r : AdPerformanceData)
    (h : 0 < m.totalSpend + r.amountSpent) :
    (mergeStep m r).purchaseRoas =
      (m.purchaseRoas * m.amountSpent + r.purchaseRoas * r.amountSpent) /
        (m.totalSpend + r.amountSpent) := by
  simp only [mergeStep]
  rw [if_pos h]

theorem mergeStep_ctrAll_pos (m : MergedAd) (r : AdPerformanceData)
    (h : 0 < m.totalSpend + r.amountSpent) :
    (mergeStep m r).ctrAll =
      (m.ctrAll * m.amountSpent + r.ctrAll * r.amountSpent) /
        (m.totalSpend + r.amountSpent) := by
  simp only [mergeStep]
  rw [if_pos h]

theorem spendSum_cons (r : AdPerformanceData) (l : List AdPerformanceData) :
    spendSum (r :: l) = r.amountSpent + spendSum l := rfl

theorem weightedRoasSum_cons (r : AdPerformanceData) (l : List AdPerformanceData) :
    weightedRoasSum (r :: l) = r.purchaseRoas * r.amountSpent + weightedRoasSum l := rfl

theorem weightedCtrSum_cons (r : AdPerformanceData) (l : List AdPerformanceData) :
    weightedCtrSum (r :: l) = r.ctrAll * r.amountSpent + weightedCtrSum l := rfl

theorem mergeRun (a : String) :
    ∀ (l : List AdPerformanceData) (m : MergedAd),
      (∀ r ∈ l, r.adId = a ∧ 0 < r.amountSpent) →
      m.adId = a → 0 < m.totalSpend → m.amountSpent = m.totalSpend →
      ∃ m2 : MergedAd, List.foldl insertAd [m] l = [m2] ∧
        m2.adId = a ∧ 0 < m2.totalSpend ∧ m2.amountSpent = m2.totalSpend ∧
        m2.totalSpend = m.totalSpend + spendSum l ∧
        m2.purchaseRoas * m2.totalSpend =
          m.purchaseRoas * m.totalSpend + weightedRoasSum l ∧
        m2.ctrAll * m2.totalSpend = m.ctrAll * m.totalSpend + weightedCtrSum l := by
  intro l
  induction l with
  | nil =>
    intro m _ hid hpos ham
    refine ⟨m, rfl, hid, hpos, ham, ?_, ?_, ?_⟩
    · show m.totalSpend = m.totalSpend + 0
      ring
    · show m.purchaseRoas * m.totalSpend = m.purchaseRoas * m.totalSpend + 0
      ring
    · show m.ctrAll * m.totalSpend = m.ctrAll * m.totalSpend + 0
      ring
  | cons r l ih =>
    intro m hall hid hpos ham
    have hr := hall r (List.mem_cons_self _ _)
    have hstep : List.foldl insertAd [m] (r :: l) =
        List.foldl insertAd [mergeStep m r] l := by
      show List.foldl insertAd (insertAd [m] r) l = _
      unfold insertAd
      simp only [upsertBy]
      rw [if_pos (by rw [hid, hr.1])]
    have hpos2 : 0 < m.totalSpend + r.amountSpent := by
      have := hr.2
      linarith
    have hne : m.totalSpend + r.amountSpent ≠ 0 := ne_of_gt hpos2
    rcases ih (mergeStep m r) (fun r2 h2 => hall r2 (List.mem_cons_of_mem _ h2))
        (by rw [mergeStep_adId, hid])
        (by rw [mergeStep_totalSpend]; exact hpos2)
        (by rw [mergeStep_amountSpent, mergeStep_totalSpend]) with
      ⟨m2, hfold, h2id, h2pos, h2am, h2ts, h2roas, h2ctr⟩
    refine ⟨m2, by rw [hstep]; exact hfold, h2id, h2pos, h2am, ?_, ?_, ?_⟩
    · rw [h2ts, mergeStep_totalSpend, spendSum_cons]
      ring
    · rw [h2roas, mergeStep_totalSpend,
        mergeStep_purchaseRoas_pos m r hpos2, div_mul_cancel₀ _ hne,
        weightedRoasSum_cons, ham]
      ring
    · rw [h2ctr, mergeStep_totalSpend,
        mergeStep_ctrAll_pos m r hpos2, div_mul_cancel₀ _ hne,
        weightedCtrSum_cons, ham]
      ring

/-- C6: merging a nonempty sequence of positive-spend rows that share one
`adId` through the incremental update
`newRoas = (oldRoas * oldSpend + rowRoas * rowSpend) / newTotalSpend`
(and likewise for CTR) produces exactly the batch weighted averages
`Σ(purchaseRoas_i * amountSpent_i) / Σ amountSpent_i` and
`Σ(ctrAll_i * amountSpent_i) / Σ amountSpent_i`; in particular the spec's
example — spends `[100, 50, 0]`, ROAS `[2.0, 4.0, 0]`, the zero-spend row
dropped by the pipeline — yields `totalSpend = 150` and
`avgRoas = 8/3`, which displays as `2.67` (it rounds to `267` at two
decimals). -/
theorem aggregatedAds_weighted_avg :
    (∀ (a : String) (l : List AdPerformanceData), l ≠ [] →
      (∀ r ∈ l, r.adId = a ∧ 0 < r.amountSpent) →
      ∃ m : MergedAd, aggregatedAds l = [m] ∧
        m.totalSpend = spendSum l ∧
        m.purchaseRoas = weightedRoasSum l / spendSum l ∧
        m.ctrAll = weightedCtrSum l / spendSum l) ∧
    (∃ m : MergedAd, adMergePipeline [exRowFeed, exRowStory, exRowZero] = [m] ∧
      m.totalSpend = 150 ∧ m.purchaseRoas = 8 / 3 ∧
      round ((100 : ℚ) * m.purchaseRoas) = 267) := by
  have hmain : ∀ (a : String) (l : List AdPerformanceData), l ≠ [] →
      (∀ r ∈ l, r.adId = a ∧ 0 < r.amountSpent) →
      ∃ m : MergedAd, aggregatedAds l = [m] ∧
        m.totalSpend = spendSum l ∧
        m.purchaseRoas = weightedRoasSum l / spendSum l ∧
        m.ctrAll = weightedCtrSum l / spendSum l := by
    intro a l hne hall
    rcases List.exists_cons_of_ne_nil hne with ⟨r, l2, rfl⟩
    have hr := hall r (List.mem_cons_self _ _)
    have hstart : aggregatedAds (r :: l2) =
        List.foldl insertAd [initMerged r] l2 := rfl
    have hts : (initMerged r).totalSpend = r.amountSpent := rfl
    rcases mergeRun a l2 (initMerged r)
        (fun r2 h2 => hall r2 (List.mem_cons_of_mem _ h2))
        hr.1 (by rw [hts]; exact hr.2) rfl with
      ⟨m2, hfold, _, h2pos, _, h2ts, h2roas, h2ctr⟩
    have htotal : m2.totalSpend = spendSum (r :: l2) := by
      rw [h2ts, hts, spendSum_cons]
    have hSne : spendSum (r :: l2) ≠ 0 := by
      rw [← htotal]
      exact ne_of_gt h2pos
    refine ⟨m2, by rw [hstart]; exact hfold, htotal, ?_, ?_⟩
    · rw [eq_div_iff hSne, ← htotal, h2roas]
      show (initMerged r).purchaseRoas * (initMerged r).totalSpend +
          weightedRoasSum l2 = _
      rw [weightedRoasSum_cons]
      show r.purchaseRoas * r.amountSpent + weightedRoasSum l2 = _
      ring
    · rw [eq_div_iff hSne, ← htotal, h2ctr]
      show (initMerged r).ctrAll * (initMerged r).totalSpend +
          weightedCtrSum l2 = _
      rw [weightedCtrSum_cons]
      show r.ctrAll * r.amountSpent + weightedCtrSum l2 = _
      ring
  refine ⟨hmain, ?_⟩
  have hfilter : filteredAds [exRowFeed, exRowStory, exRowZero] =
      [exRowFeed, exRowStory] := by decide
  have hpipe : adMergePipeline [exRowFeed, exRowStory, exRowZero] =
      aggregatedAds [exRowFeed, exRowStory] := by
    unfold adMergePipeline
    rw [hfilter]
  rcases hmain "A1" [exRowFeed, exRowStory] (by decide)
      (by decide) with ⟨m, hagg, hts, hroas, _⟩
  have hspend : spendSum [exRowFeed, exRowStory] = 150 := by
    show (100 : ℚ) + (50 + 0) = 150
    norm_num
  have hw : weightedRoasSum [exRowFeed, exRowStory] = 400 := by
    show (2 : ℚ) * 100 + (4 * 50 + 0) = 400
    norm_num
  refine ⟨m, by rw [hpipe]; exact hagg, by rw [hts, hspend], ?_, ?_⟩
  · rw [hroas, hspend, hw]
    norm_num
  · rw [hroas, hspend, hw]
    norm_num [round_eq]

theorem aggregatedAds_weighted_avg_witness :
    ∃ m : MergedAd, aggregatedAds [exRowFeed, exRowStory] = [m] ∧
      m.totalSpend = spendSum [exRowFeed, exRowStory] ∧
      m.purchaseRoas =
        weightedRoasSum [exRowFeed, exRowStory] / spendSum [exRowFeed, exRowStory] ∧
      m.ctrAll =
        weightedCtrSum [exRowFeed, exRowStory] / spendSum [exRowFeed, exRowStory] :=
  aggregatedAds_weighted_avg.1 "A1" [exRowFeed, exRowStory] (by decide) (by decide)

theorem mem_pushNew (l : List String) (s p : String) :
    p ∈ pushNew l s ↔ p ∈ l ∨ p = s := by
  unfold pushNew
  by_cases h : s ∈ l
  · rw [if_pos h]
    constructor
    · exact Or.inl
    · rintro (h2 | h2)
      · exact h2
      · exact h2 ▸ h
  · rw [if_neg h]
    rw [List.mem_append, List.mem_singleton]

theorem nodup_pushNew (l : List String) (s : String) (h : l.Nodup) :
    (pushNew l s).Nodup := by
  unfold pushNew
  by_cases hs : s ∈ l
  · rwa [if_pos hs]
  · rw [if_neg hs]
    exact List.Nodup.append h (List.nodup_singleton s)
      (by intro a ha hb; rw [List.mem_singleton] at hb; subst hb; exact hs ha)

theorem maxPriority_append_singleton (rows : List AdPerformanceData)
    (r : AdPerformanceData) :
    maxPriority (rows ++ [r]) =
      Nat.max (maxPriority rows) (statusPriority r.deliveryStatus) := by
  unfold maxPriority
  rw [List.map_append, List.foldl_append]
  rfl

theorem maxPriority_singleton (r : AdPerformanceData) :
    maxPriority [r] = statusPriority r.deliveryStatus := by
  unfold maxPriority
  show Nat.max 0 (statusPriority r.deliveryStatus) = _
  exact Nat.zero_max _

theorem mergeStep_placements (m : MergedAd) (r : AdPerformanceData) :
    (mergeStep m r).placements = pushNew m.placements r.placement := rfl

theorem mergeStep_platforms (m : MergedAd) (r : AdPerformanceData) :
    (mergeStep m r).platforms = pushNew m.platforms r.platform := rfl

theorem mergeStep_deliveryStatus (m : MergedAd) (r : AdPerformanceData) :
    (mergeStep m r).deliveryStatus =
      if statusPriority m.deliveryStatus < statusPriority r.deliveryStatus
      then r.deliveryStatus else m.deliveryStatus := rfl

theorem mergedProps_step (m : MergedAd) (r : AdPerformanceData)
    (rows : List AdPerformanceData) (h : MergedProps m rows) :
    MergedProps (mergeStep m r) (rows ++ [r]) := by
  obtain ⟨hne, hpnd, hpm, hfnd, hfm, hprio, hmem⟩ := h
  refine ⟨by simp, ?_, ?_, ?_, ?_, ?_, ?_⟩
  · rw [mergeStep_placements]
    exact nodup_pushNew _ _ hpnd
  · intro p
    rw [mergeStep_placements, mem_pushNew, List.map_append, List.mem_append, hpm]
    simp
  · rw [mergeStep_platforms]
    exact nodup_pushNew _ _ hfnd
  · intro p
    rw [mergeStep_platforms, mem_pushNew, List.map_append, List.mem_append, hfm]
    simp
  · rw [mergeStep_deliveryStatus, maxPriority_append_singleton, ← hprio]
    by_cases hlt : statusPriority m.deliveryStatus < statusPriority r.deliveryStatus
    · rw [if_pos hlt]
      exact (Nat.max_eq_right (Nat.le_of_lt hlt)).symm
    · rw [if_neg hlt]
      exact (Nat.max_eq_left (Nat.le_of_not_lt hlt)).symm
  · rw [mergeStep_deliveryStatus, List.map_append]
    by_cases hlt : statusPriority m.deliveryStatus < statusPriority r.deliveryStatus
    · rw [if_pos hlt]
      exact List.mem_append_right _ (List.mem_singleton_self _)
    · rw [if_neg hlt]
      exact List.mem_append_left _ hmem

theorem mergedProps_init (r : AdPerformanceData) :
    MergedProps (initMerged r) [r] := by
  refine ⟨by simp, List.nodup_singleton _, ?_, List.nodup_singleton _, ?_, ?_, ?_⟩
  · intro p
    show p ∈ [r.placement] ↔ p ∈ [r.placement]
    exact Iff.rfl
  · intro p
    show p ∈ [r.platform] ↔ p ∈ [r.platform]
    exact Iff.rfl
  · rw [maxPriority_singleton]
    rfl
  · show r.deliveryStatus ∈ [r.deliveryStatus]
    exact List.mem_singleton_self _

theorem mergeInv_step (seen : List AdPerformanceData) (acc : List MergedAd)
    (r : AdPerformanceData) (h : MergeInv seen acc) :
    MergeInv (seen ++ [r]) (insertAd acc r) := by
  obtain ⟨hnd, hcomp, hent⟩ := h
  have hmk : (initMerged r).adId = r.adId := rfl
  have hfk : ∀ m : MergedAd, m.adId = r.adId → (mergeStep m r).adId = r.adId :=
    fun m hm => hm
  refine ⟨?_, ?_, ?_⟩
  · exact nodup_map_key_upsertBy _ _ _ _ hmk hfk acc hnd
  · intro r2 hr2
    unfold insertAd
    rw [map_key_upsertBy _ _ _ _ hmk hfk]
    rcases List.mem_append.mp hr2 with h1 | h1
    · have h2 := hcomp r2 h1
      by_cases hk : r.adId ∈ acc.map (fun m => m.adId)
      · rwa [if_pos hk]
      · rw [if_neg hk]
        exact List.mem_append_left _ h2
    · rw [List.mem_singleton] at h1
      subst h1
      by_cases hk : r2.adId ∈ acc.map (fun m => m.adId)
      · rwa [if_pos hk]
      · rw [if_neg hk]
        exact List.mem_append_right _ (List.mem_singleton_self _)
  · intro m hm
    rcases mem_upsertBy_nodup _ _ _ _ acc hnd m hm with
      ⟨hin, hkne⟩ | ⟨x, hx, hxk, hcx⟩ | ⟨hcmk, hnotin⟩
    · have hrows : rowsFor m.adId (seen ++ [r]) = rowsFor m.adId seen := by
        unfold rowsFor
        rw [List.filter_append]
        have hf1 : List.filter (fun r2 => r2.adId == m.adId) [r] = [] := by
          simp only [List.filter_cons, List.filter_nil]
          rw [if_neg]
          intro h4
          rw [beq_iff_eq] at h4
          exact hkne (h4 ▸ rfl)
        rw [hf1, List.append_nil]
      rw [hrows]
      exact hent m hin
    · subst hcx
      have hrows : rowsFor (mergeStep x r).adId (seen ++ [r]) =
          rowsFor x.adId seen ++ [r] := by
        rw [mergeStep_adId]
        unfold rowsFor
        rw [List.filter_append]
        have hf1 : List.filter (fun r2 => r2.adId == x.adId) [r] = [r] := by
          simp only [List.filter_cons, List.filter_nil]
          rw [if_pos (beq_iff_eq.mpr hxk.symm)]
        rw [hf1]
      rw [hrows]
      exact mergedProps_step x r (rowsFor x.adId seen) (hent x hx)
    · subst hcmk
      have hempty : rowsFor (initMerged r).adId seen = [] := by
        rw [hmk]
        unfold rowsFor
        rw [List.filter_eq_nil_iff]
        intro r2 hr2 hbe
        rw [beq_iff_eq] at hbe
        exact hnotin (hbe ▸ hcomp r2 hr2)
      have hrows : rowsFor (initMerged r).adId (seen ++ [r]) = [r] := by
        unfold rowsFor at *
        rw [List.filter_append, hempty, List.nil_append, hmk]
        simp only [List.filter_cons, List.filter_nil]
        rw [if_pos (beq_iff_eq.mpr rfl)]
      rw [hrows]
      exact mergedProps_init r

theorem mergeInv_fold :
    ∀ (data seen : List AdPerformanceData) (acc : List MergedAd),
      MergeInv seen acc → MergeInv (seen ++ data) (data.foldl insertAd acc) := by
  intro data
  induction data with
  | nil =>
    intro seen acc h
    simpa using h
  | cons r rs ih =>
    intro seen acc h
    have h2 := mergeInv_step seen acc r h
    have h3 := ih (seen ++ [r]) _ h2
    simpa [List.append_assoc] using h3

theorem mergeInv_aggregatedAds (l : List AdPerformanceData) :
    MergeInv l (aggregatedAds l) := by
  have h0 : MergeInv [] [] := ⟨by simp, by simp, by simp⟩
  have h := mergeInv_fold l [] [] h0
  simpa using h

/-- C7: rows with zero `amountSpent` are excluded before the ad-level
merge; each merged ad's `placements` and `platforms` are duplicate-free
lists holding exactly the distinct placements and platforms of its
constituent positive-spend rows; and its `deliveryStatus` is a
constituent status of maximal priority under the fixed ranking
`active(4) > not_delivering(3) > inactive(2) > archived(1)` (statuses
outside the table rank `0`). -/
theorem adMergePipeline_dimensions (base : List AdPerformanceData) :
    (∀ r ∈ base, r.amountSpent = 0 → r ∉ filteredAds base) ∧
    ∀ m ∈ adMergePipeline base,
      MergedProps m (rowsFor m.adId (filteredAds base)) := by
  constructor
  · intro r _ hzero hmem
    unfold filteredAds at hmem
    rcases List.mem_filter.mp hmem with ⟨_, h2⟩
    rw [decide_eq_true_iff] at h2
    rw [hzero] at h2
    exact lt_irrefl 0 h2
  · intro m hm
    exact (mergeInv_aggregatedAds (filteredAds base)).2.2 m hm

theorem adMergePipeline_dimensions_witness :
    (∀ r ∈ [exRowFeed, exRowStory, exRowZero], r.amountSpent = 0 →
      r ∉ filteredAds [exRowFeed, exRowStory, exRowZero]) ∧
    MergedProps (mergeStep (initMerged exRowFeed) exRowStory)
      (rowsFor (mergeStep (initMerged exRowFeed) exRowStory).adId
        (filteredAds [exRowFeed, exRowStory, exRowZero])) := by
  have h := adMergePipeline_dimensions [exRowFeed, exRowStory, exRowZero]
  refine ⟨h.1, ?_⟩
  apply h.2
  show mergeStep (initMerged exRowFeed) exRowStory ∈
    aggregatedAds (filteredAds [exRowFeed, exRowStory, exRowZero])
  have hfilter : filteredAds [exRowFeed, exRowStory, exRowZero] =
      [exRowFeed, exRowStory] := by decide
  rw [hfilter]
  have hagg : aggregatedAds [exRowFeed, exRowStory] =
      [mergeStep (initMerged exRowFeed) exRowStory] := rfl
  rw [hagg]
  exact List.mem_singleton_self _

end AdDash
